import Mathlib

/-!
Verification development for the tournament-scheduling engine of the
`test-match` repository.  The definitions below are a shallow embedding of
`src/lib/scheduler.ts` and `src/lib/utils.ts` (types from `src/lib/types.ts`):
pure TypeScript functions become Lean functions, JavaScript `Map`/`Set` state
becomes explicit functional state, machine numbers become `Nat`/`Int`, and the
floating-point averages/percentages are modelled by exact fractions (`Frac`).
The non-deterministic id generator (`generateId`, built from `Date.now` and
`Math.random` in `src/lib/utils.ts`) is modelled by an injected deterministic
id source `genId : String → String` applied to the same prefix the source
builds, as ids are opaque to every consumer.
-/

set_option maxHeartbeats 1000000

namespace TestMatch

/-- Exact fraction `num / den` (`den` is kept positive at every use site).
Models the TypeScript floating-point quotients (averages, percentages,
fairness scores); every comparison the scheduler performs is a plain
numeric comparison, modelled by cross multiplication. -/
structure Frac where
  num : Int
  den : Nat
deriving DecidableEq, Repr

/-- `x ≤ y` on fractions with positive denominators. -/
def Frac.le (x y : Frac) : Prop := x.num * y.den ≤ y.num * x.den

/-- `x < y` on fractions with positive denominators. -/
def Frac.lt (x y : Frac) : Prop := x.num * y.den < y.num * x.den

instance : DecidableRel Frac.le := fun x y =>
  inferInstanceAs (Decidable (x.num * y.den ≤ y.num * x.den))

instance : DecidableRel Frac.lt := fun x y =>
  inferInstanceAs (Decidable (x.num * y.den < y.num * x.den))

/-- Embed a natural number as a fraction. -/
def Frac.ofNat (n : Nat) : Frac := ⟨n, 1⟩

/-- Embed an integer as a fraction. -/
def Frac.ofInt (n : Int) : Frac := ⟨n, 1⟩

/-- The quotient `a / b` of two machine numbers (used only where the source
guards `b > 0`). -/
def Frac.divNat (a b : Nat) : Frac := ⟨a, b⟩

/-- The quotient of an integer by a natural number. -/
def Frac.divInt (a : Int) (b : Nat) : Frac := ⟨a, b⟩

/-- Fraction addition. -/
def Frac.add (x y : Frac) : Frac := ⟨x.num * y.den + y.num * x.den, x.den * y.den⟩

/-- Fraction subtraction. -/
def Frac.sub (x y : Frac) : Frac := ⟨x.num * y.den - y.num * x.den, x.den * y.den⟩

/-- Multiplication of a fraction by a natural number. -/
def Frac.mulNat (x : Frac) (k : Nat) : Frac := ⟨x.num * k, x.den⟩

/-- Absolute value of a fraction (`Math.abs`). -/
def Frac.fabs (x : Frac) : Frac := ⟨|x.num|, x.den⟩

/-! ### Utilities (`src/lib/utils.ts`) -/

/-- Numeric value of a decimal digit character. -/
def digitVal? (c : Char) : Option Nat :=
  if ('0') ≤ c ∧ c ≤ ('9') then some (c.toNat - ('0').toNat) else none

/-- Read a (base-ten) numeral from a character list. -/
def natFromCharsAux : List Char → Nat → Option Nat
  | [], acc => some acc
  | c :: cs, acc =>
    match digitVal? c with
    | some d => natFromCharsAux cs (acc * 10 + d)
    | none => none

/-- `Number(field)` on a numeric field of a well-formed "HH:MM" string:
`none` models `NaN` (a non-numeric or empty field). -/
def natFromChars? (l : List Char) : Option Nat :=
  if l.isEmpty then none else natFromCharsAux l 0

/-- Split a character list at every occurrence of `c` (the `String.split`
used by `parseTime`). -/
def splitOnChar (c : Char) : List Char → List (List Char)
  | [] => [[]]
  | x :: xs =>
    if x = c then [] :: splitOnChar c xs
    else
      match splitOnChar c xs with
      | [] => [[x]]
      | h :: t => (x :: h) :: t

/-- `parseTime` from `src/lib/utils.ts`: parse "HH:MM" into seconds since
midnight; `none` models the thrown `Invalid time format` error (`NaN` in
either of the first two `:`-separated fields). -/
def parseTime? (time : String) : Option Nat :=
  match splitOnChar (':') time.toList with
  | h :: m :: _ =>
    match natFromChars? h, natFromChars? m with
    | some hv, some mv => some (hv * 3600 + mv * 60)
    | _, _ => none
  | _ => none

/-- `String(n).padStart(2, '0')`. -/
def pad2 (s : String) : String := if s.length < 2 then ("0") ++ s else s

/-- `formatTime` from `src/lib/utils.ts`: seconds since midnight to "HH:MM". -/
def formatTime (seconds : Nat) : String :=
  pad2 (toString (seconds / 3600)) ++ (":") ++ pad2 (toString ((seconds % 3600) / 60))

/-- `combinations` from `src/lib/utils.ts`: `C(n, 2)`. -/
def combinations (n : Nat) : Nat :=
  if n < 2 then 0 else n * (n - 1) / 2

/-! ### Data model (`src/lib/types.ts`) -/

structure Athlete where
  id : String
  name : String
  groupId : String
deriving DecidableEq, Repr

structure Group where
  id : String
  name : String
  areaId : String
  athletes : List Athlete
deriving DecidableEq, Repr

structure Area where
  id : String
  name : String
  groups : List Group
deriving DecidableEq, Repr

/-- `Event` (timing parameters in seconds, window bounds as "HH:MM"). -/
structure Event where
  id : String
  name : String
  date : String
  fightDuration : Nat
  rotationTime : Nat
  startTime : String
  endTime : String
  areas : List Area
  minRestBetweenFightsSeconds : Option Nat
deriving DecidableEq, Repr

structure Match where
  id : String
  groupId : String
  athlete1Id : String
  athlete2Id : String
  cycle : Nat
deriving DecidableEq, Repr

structure Round where
  roundNumber : Nat
  groupId : String
  «matches» : List Match
deriving DecidableEq, Repr

structure ScheduleEntry where
  id : String
  areaId : String
  groupId : String
  matchId : String
  sequenceNumber : Nat
  scheduledTime : String
  startTimeSeconds : Nat
  endTimeSeconds : Nat
  athlete1Id : String
  athlete2Id : String
  athlete1Name : String
  athlete2Name : String
  roundNumber : Option Nat
deriving DecidableEq, Repr

structure Warning where
  type : String
  severity : String
  message : String
  affectedItems : List String
  suggestion : Option String
deriving DecidableEq, Repr

structure AreaStats where
  areaId : String
  areaName : String
  matchCount : Nat
  duration : Int
  marginOrOverflow : Int
deriving DecidableEq, Repr

structure AthleteStats where
  athleteId : String
  athleteName : String
  groupId : String
  groupName : String
  matchCount : Nat
  minRestSeconds : Int
  maxRestSeconds : Int
  avgRestSeconds : Frac
  totalRestSeconds : Int
  consecutiveMatchesCount : Nat
deriving DecidableEq, Repr

structure GroupTimeBoxedStats where
  groupId : String
  groupName : String
  athleteCount : Nat
  totalMatches : Nat
  theoreticalMax : Nat
  completenessPercentage : Frac
  minMatchesPerAthlete : Nat
  maxMatchesPerAthlete : Nat
  avgMatchesPerAthlete : Frac
  matchCountGap : Nat
deriving DecidableEq, Repr

structure TimeBoxedStats where
  minMatchesPerAthlete : Nat
  maxMatchesPerAthlete : Nat
  avgMatchesPerAthlete : Frac
  matchCountGap : Nat
  groupStats : List GroupTimeBoxedStats
  totalMatchesScheduled : Nat
  totalTheoreticalMatches : Nat
  overallCompletenessPercentage : Frac
  rematchesCount : Nat
  timeUsedSeconds : Int
  timeAvailableSeconds : Int
  timeUtilizationPercentage : Frac
deriving DecidableEq, Repr

structure ScheduleStats where
  totalMatches : Nat
  totalDuration : Int
  areaStats : List AreaStats
  athleteStats : List AthleteStats
  timeBoxedStats : Option TimeBoxedStats
deriving DecidableEq, Repr

structure Schedule where
  eventId : String
  entries : List ScheduleEntry
  stats : ScheduleStats
  warnings : List Warning
deriving DecidableEq, Repr

/-- The `{ schedule, warnings }` record returned by the two scheduling
entry points. -/
structure ScheduleResult where
  schedule : Schedule
  warnings : List Warning
deriving DecidableEq, Repr

/-! ### Pairing Generator (`generateRoundsForGroup`, scheduler.ts lines 36-98) -/

/-- The sentinel id of the synthetic BYE participant. -/
def byeId : String := "BYE"

/-- The synthetic BYE participant appended when the roster size is odd. -/
def byeAthlete (groupId : String) : Athlete :=
  { id := byeId, name := byeId, groupId := groupId }

/-- One rotation step of the circle method:
`indexes.splice(1, 0, indexes.pop()!)` — the last element is removed and
re-inserted at position 1, every other position shifting right. -/
def rotateIdx : List Nat → List Nat
  | [] => []
  | x :: xs =>
    match xs.getLast? with
    | none => [x]
    | some y => x :: y :: xs.dropLast

/-- The matches of one round, read off the current index list `l`:
position `i` is paired with position `participants.length - 1 - i` for
`i < halfSize`, and matches involving the BYE participant are dropped. -/
def roundMatchesFromIdx (genId : String → String) (participants : List Athlete)
    (l : List Nat) (groupId : String) (c r halfSize : Nat) : List Match :=
  (List.range halfSize).filterMap (fun i =>
    match l[i]?, l[participants.length - 1 - i]? with
    | some homeIdx, some awayIdx =>
      match participants[homeIdx]?, participants[awayIdx]? with
      | some home, some away =>
        if home.id = byeId ∨ away.id = byeId then none
        else some
          { id := genId (("match_") ++ groupId ++ ("_c") ++ toString c ++ ("_r") ++ toString r)
            groupId := groupId
            athlete1Id := home.id
            athlete2Id := away.id
            cycle := c }
      | _, _ => none
    | _, _ => none)

/-- The participant list: the roster, plus the synthetic BYE when the roster
size is odd (scheduler.ts lines 47-55). -/
def participantsOf (athletes : List Athlete) (groupId : String) : List Athlete :=
  athletes ++ (if athletes.length % 2 = 1 then [byeAthlete groupId] else [])

/-- `generateRoundsForGroup` (scheduler.ts lines 36-98): circle-method
round-robin generation.  The nested `for cycle` / `for round` loops that
thread the mutable `indexes` array become nested folds threading the index
list. -/
def generateRoundsForGroup (genId : String → String) (athletes : List Athlete)
    (groupId : String) (cyclesPerGroup : Nat) : List Round :=
  if athletes.length < 2 then []
  else
    let participants := participantsOf athletes groupId
    let numRounds := participants.length - 1
    let halfSize := participants.length / 2
    ((List.range' 1 cyclesPerGroup).foldl (fun acc c =>
        (List.range numRounds).foldl (fun acc2 r =>
          (acc2.1 ++
            [{ roundNumber := (c - 1) * numRounds + r + 1
               groupId := groupId
               «matches» := roundMatchesFromIdx genId participants acc2.2 groupId c r halfSize }],
           rotateIdx acc2.2)) acc)
      (([] : List Round), List.range participants.length)).1

/-! ### Time-boxed scheduler state (`src/lib/types.ts`)

The JavaScript `Map<string, _>` state containers are modelled as total
functions from keys: `Map.get(k)!` becomes application, `Map.set` becomes a
pointwise functional update.  This is extensionally the map's content on
every key the scheduler ever queries (all of which it initialised). -/

structure AthleteSchedulingState where
  athleteId : String
  matchCount : Nat
  opponents : List String
  lastMatchEndTime : Nat
  availableAt : Nat

structure GroupSchedulingState where
  groupId : String
  athleteStates : String → AthleteSchedulingState
  totalMatches : Nat
  lastScheduledTime : Nat

/-- `Set.add` on the opponent set (only membership is ever queried). -/
def addOpponent (l : List String) (x : String) : List String :=
  if l.contains x then l else l ++ [x]

/-- Pointwise update of a map-as-function. -/
def updAthleteState (m : String → AthleteSchedulingState) (k : String)
    (v : AthleteSchedulingState) : String → AthleteSchedulingState :=
  fun x => if x = k then v else m x

/-- Pointwise update of the group-state map. -/
def updGroupState (m : String → GroupSchedulingState) (k : String)
    (v : GroupSchedulingState) : String → GroupSchedulingState :=
  fun x => if x = k then v else m x

structure CandidatePair where
  athlete1 : Athlete
  athlete2 : Athlete
  fairnessScore : Frac
  isRematch : Bool
deriving DecidableEq, Repr

/-- All unordered pairs of a roster in the enumeration order of the source's
double loop (`i` ascending, then `j > i` ascending). -/
def pairsInOrder {α : Type} : List α → List (α × α)
  | [] => []
  | x :: xs => xs.map (fun y => (x, y)) ++ pairsInOrder xs

/-- Comparison used to sort candidate pairs (`a.fairnessScore - b.fairnessScore`). -/
def candLe (a b : CandidatePair) : Prop := Frac.le a.fairnessScore b.fairnessScore

instance : DecidableRel candLe :=
  fun a b => inferInstanceAs (Decidable (Frac.le a.fairnessScore b.fairnessScore))

/-- The candidate built (or skipped) for one enumerated pair: the body of the
double loop of `findBestPairForGroup` (scheduler.ts lines 468-510). -/
def mkCandidate (state : GroupSchedulingState) (avgMatchCount : Frac) (currentTime : Nat)
    (p : Athlete × Athlete) : Option CandidatePair :=
  let state1 := state.athleteStates p.1.id
  let state2 := state.athleteStates p.2.id
  if currentTime < state1.availableAt ∨ currentTime < state2.availableAt then none
  else
    let isRematch := state1.opponents.contains p.2.id
    let matchCountScore := Frac.ofNat ((state1.matchCount + state2.matchCount) * 10)
    let balancePenalty :=
      Frac.add ((Frac.sub (Frac.ofNat state1.matchCount) avgMatchCount).fabs)
        ((Frac.sub (Frac.ofNat state2.matchCount) avgMatchCount).fabs)
    some { athlete1 := p.1, athlete2 := p.2,
           fairnessScore := Frac.add matchCountScore balancePenalty,
           isRematch := isRematch }

/-- The group's average match count used for scoring (scheduler.ts lines 462-465). -/
def groupAvgMatchCount (group : Group) (state : GroupSchedulingState) : Frac :=
  if 0 < group.athletes.length then Frac.divNat state.totalMatches group.athletes.length
  else Frac.ofNat 0

/-- `findBestPairForGroup` (scheduler.ts lines 452-525): enumerate the
availability-eligible pairs, split new opponents from rematches, prefer the
new-opponent list, and return the head of the stable sort by fairness score.
`Array.prototype.sort` is stable, so any stable sort (here insertion sort)
produces the identical list. -/
def findBestPairForGroup (group : Group) (state : GroupSchedulingState)
    (currentTime minRestSeconds : Nat) : Option CandidatePair :=
  let allCandidates := (pairsInOrder group.athletes).filterMap
    (mkCandidate state (groupAvgMatchCount group state) currentTime)
  let candidatesNewOpponents := allCandidates.filter (fun c => !c.isRematch)
  let candidatesRematches := allCandidates.filter (fun c => c.isRematch)
  let selectedCandidates :=
    if 0 < candidatesNewOpponents.length then candidatesNewOpponents
    else if 0 < candidatesRematches.length then candidatesRematches
    else []
  (List.insertionSort candLe selectedCandidates).head?

/-- Comparison used to sort group metrics by average matches per athlete. -/
def metricLe (a b : String × Frac × Bool) : Prop := Frac.le a.2.1 b.2.1

instance : DecidableRel metricLe :=
  fun a b => inferInstanceAs (Decidable (Frac.le a.2.1 b.2.1))

/-- `selectNextGroup` (scheduler.ts lines 531-569). -/
def selectNextGroup (groups : List Group) (groupStates : String → GroupSchedulingState)
    (currentTime minRestSeconds : Nat) : Option String :=
  let metrics := groups.map (fun group =>
    let state := groupStates group.id
    let avgMatchesPerAthlete : Frac :=
      if 0 < group.athletes.length then Frac.divNat state.totalMatches group.athletes.length
      else Frac.ofNat 0
    (group.id, avgMatchesPerAthlete,
      (findBestPairForGroup group state currentTime minRestSeconds).isSome))
  let eligible := metrics.filter (fun m => m.2.2)
  ((List.insertionSort metricLe eligible).head?).map (fun m => m.1)

/-- The `nextAvailable` scan of the stalled branch (scheduler.ts lines
626-637): minimum `availableAt` strictly after the clock, `endTimeSeconds`
when none exists.  Iterating the state maps' values is modelled by iterating
the group / athlete lists they were built from (same multiset of states). -/
def computeNextAvailable (groups : List Group)
    (groupStates : String → GroupSchedulingState) (currentTime endTimeSeconds : Nat) : Nat :=
  groups.foldl (fun acc group =>
    group.athletes.foldl (fun acc2 athlete =>
      let av := ((groupStates group.id).athleteStates athlete.id).availableAt
      if currentTime < av ∧ av < acc2 then av else acc2) acc) endTimeSeconds

/-- The `ScheduleEntry` pushed by one commit step (scheduler.ts lines
663-681). -/
def commitEntry (genId : String → String) (area : Area) (selectedGroupId : String)
    (bestPair : CandidatePair) (currentTime fightDuration seq2 : Nat) : ScheduleEntry :=
  { id := genId (("entry_") ++ area.id)
    areaId := area.id
    groupId := selectedGroupId
    matchId := genId (("match_") ++ area.id ++ ("_") ++ selectedGroupId)
    sequenceNumber := seq2
    scheduledTime := formatTime currentTime
    startTimeSeconds := currentTime
    endTimeSeconds := currentTime + fightDuration
    athlete1Id := bestPair.athlete1.id
    athlete2Id := bestPair.athlete2.id
    athlete1Name := bestPair.athlete1.name
    athlete2Name := bestPair.athlete2.name
    roundNumber := none }

/-- The state updates of one commit step (scheduler.ts lines 683-700): both
athletes' counters, opponent sets and availability, then the group's
counters.  The two in-place object mutations become two sequential pointwise
updates (which also agrees with the source when both athletes alias the same
state object). -/
def commitStates (groupStates : String → GroupSchedulingState) (selectedGroupId : String)
    (bestPair : CandidatePair) (matchEndTime minRestSeconds currentTime : Nat) :
    String → GroupSchedulingState :=
  let groupState := groupStates selectedGroupId
  let st1 := groupState.athleteStates bestPair.athlete1.id
  let as1 := updAthleteState groupState.athleteStates bestPair.athlete1.id
    { st1 with
      matchCount := st1.matchCount + 1
      opponents := addOpponent st1.opponents bestPair.athlete2.id
      lastMatchEndTime := matchEndTime
      availableAt := matchEndTime + minRestSeconds }
  let st2 := as1 bestPair.athlete2.id
  let as2 := updAthleteState as1 bestPair.athlete2.id
    { st2 with
      matchCount := st2.matchCount + 1
      opponents := addOpponent st2.opponents bestPair.athlete1.id
      lastMatchEndTime := matchEndTime
      availableAt := matchEndTime + minRestSeconds }
  updGroupState groupStates selectedGroupId
    { groupState with
      athleteStates := as2
      totalMatches := groupState.totalMatches + 1
      lastScheduledTime := currentTime }

/-- The main `while` loop of `scheduleTimeBoxedMatchesForArea` (scheduler.ts
lines 614-704), written with explicit fuel.  Each iteration strictly
increases the virtual clock whenever `fightDuration ≥ 1` (the input contract
demands a positive match duration), so the fuel supplied by
`scheduleTimeBoxedMatchesForArea` is never exhausted on such inputs; on a
zero match duration the TypeScript loop itself need not terminate. -/
def timeBoxedLoop (genId : String → String) (area : Area) (groups : List Group)
    (fightDuration rotationTime endTimeSeconds minRestSeconds : Nat) :
    Nat → Nat → (String → GroupSchedulingState) → Nat → List ScheduleEntry → List ScheduleEntry
  | 0, _, _, _, entries => entries
  | fuel + 1, currentTime, groupStates, sequenceNumber, entries =>
    if currentTime + fightDuration ≤ endTimeSeconds then
      match selectNextGroup groups groupStates currentTime minRestSeconds with
      | none =>
        let nextAvailable := computeNextAvailable groups groupStates currentTime endTimeSeconds
        if endTimeSeconds ≤ nextAvailable then entries
        else
          timeBoxedLoop genId area groups fightDuration rotationTime endTimeSeconds minRestSeconds
            fuel nextAvailable groupStates sequenceNumber entries
      | some selectedGroupId =>
        match groups.find? (fun g => decide (g.id = selectedGroupId)) with
        | none => entries
        | some selectedGroup =>
          match findBestPairForGroup selectedGroup (groupStates selectedGroupId)
              currentTime minRestSeconds with
          | none => entries
          | some bestPair =>
            timeBoxedLoop genId area groups fightDuration rotationTime endTimeSeconds minRestSeconds
              fuel (currentTime + fightDuration + rotationTime)
              (commitStates groupStates selectedGroupId bestPair
                (currentTime + fightDuration) minRestSeconds currentTime)
              (sequenceNumber + 1)
              (entries ++ [commitEntry genId area selectedGroupId bestPair currentTime
                fightDuration (sequenceNumber + 1)])
    else entries

/-- `scheduleTimeBoxedMatchesForArea` (scheduler.ts lines 575-707). -/
def scheduleTimeBoxedMatchesForArea (genId : String → String) (area : Area)
    (groups : List Group) (fightDuration rotationTime startTimeSeconds endTimeSeconds
    minRestSeconds : Nat) : List ScheduleEntry :=
  let groupStates0 : String → GroupSchedulingState := fun gid =>
    { groupId := gid
      athleteStates := fun aid =>
        { athleteId := aid, matchCount := 0, opponents := [],
          lastMatchEndTime := startTimeSeconds, availableAt := startTimeSeconds }
      totalMatches := 0
      lastScheduledTime := startTimeSeconds }
  timeBoxedLoop genId area groups fightDuration rotationTime endTimeSeconds minRestSeconds
    (endTimeSeconds + 1 - startTimeSeconds) startTimeSeconds groupStates0 0 []

/-! ### Validators and statistics -/

/-- Comparison used to sort an athlete's entries by start time. -/
def entryLe (a b : ScheduleEntry) : Prop := a.startTimeSeconds ≤ b.startTimeSeconds

instance : DecidableRel entryLe :=
  fun a b => inferInstanceAs (Decidable (a.startTimeSeconds ≤ b.startTimeSeconds))

/-- `validateMinRestBetweenFights` (scheduler.ts lines 166-205).  The numeric
fragments of the message use exact integer arithmetic in place of the
floating-point display arithmetic; no consumer inspects the message text. -/
def validateMinRestBetweenFights (entries : List ScheduleEntry) (athletes : List Athlete)
    (minRestSeconds : Nat) : List Warning :=
  if minRestSeconds ≤ 0 then []
  else
    athletes.foldl (fun warnings athlete =>
      let athleteMatches := List.insertionSort entryLe
        (entries.filter (fun e => decide (e.athlete1Id = athlete.id ∨ e.athlete2Id = athlete.id)))
      warnings ++ ((athleteMatches.zip athleteMatches.tail).filterMap (fun pc =>
        let restSeconds : Int := (pc.2.startTimeSeconds : Int) - pc.1.endTimeSeconds
        if restSeconds < (minRestSeconds : Int) then
          some { type := "REST_VIOLATION"
                 severity := "warning"
                 message := athlete.name ++ (" : repos de ") ++ toString (Int.fdiv restSeconds 60)
                   ++ ("min ") ++ toString (Int.emod restSeconds 60)
                   ++ ("s (minimum requis: ") ++ toString (minRestSeconds / 60) ++ ("min)")
                 affectedItems := [athlete.id, pc.1.id, pc.2.id]
                 suggestion := some ("Augmenter le temps de rotation ou reorganiser les rounds") }
        else none))) []

/-- The loop body of `computeAthleteStats` for one athlete (scheduler.ts
lines 220-262). -/
def athleteStatsStep (entries : List ScheduleEntry) (groupsMap : String → Option Group)
    (minRestBetweenFightsSeconds : Nat) (stats : List AthleteStats) (athlete : Athlete) :
    List AthleteStats :=
  let athleteMatches := List.insertionSort entryLe
    (entries.filter (fun e => decide (e.athlete1Id = athlete.id ∨ e.athlete2Id = athlete.id)))
  if athleteMatches.length = 0 then stats
  else
      let restTimes : List Int := (athleteMatches.zip athleteMatches.tail).map
        (fun pc => (pc.2.startTimeSeconds : Int) - pc.1.endTimeSeconds)
      let consecutiveCount := restTimes.countP (fun r => decide (r < (minRestBetweenFightsSeconds : Int)))
      match groupsMap athlete.groupId with
      | none => stats
      | some group =>
        stats ++
          [{ athleteId := athlete.id
             athleteName := athlete.name
             groupId := athlete.groupId
             groupName := group.name
             matchCount := athleteMatches.length
             minRestSeconds := match restTimes with | [] => 0 | x :: xs => xs.foldl min x
             maxRestSeconds := match restTimes with | [] => 0 | x :: xs => xs.foldl max x
             avgRestSeconds :=
               if 0 < restTimes.length then
                 Frac.divInt (restTimes.foldl (fun a b => a + b) 0) restTimes.length
               else Frac.ofNat 0
             totalRestSeconds := restTimes.foldl (fun a b => a + b) 0
             consecutiveMatchesCount := consecutiveCount }]

/-- `computeAthleteStats` (scheduler.ts lines 212-265).  `groupsMap` is the
lookup function of the `Map<string, Group>` the callers build. -/
def computeAthleteStats (entries : List ScheduleEntry) (athletes : List Athlete)
    (groupsMap : String → Option Group) (minRestBetweenFightsSeconds : Nat) : List AthleteStats :=
  athletes.foldl (athleteStatsStep entries groupsMap minRestBetweenFightsSeconds) []

/-- Insertion-ordered `Map.set`: overwrite in place when the key exists,
append otherwise (JavaScript `Map` semantics). -/
def upsertLast {α : Type} (m : List (String × α)) (k : String) (v : α) : List (String × α) :=
  if m.any (fun p => decide (p.1 = k)) then m.map (fun p => if p.1 = k then (k, v) else p)
  else m ++ [(k, v)]

/-- `Map.get` on an insertion-ordered association list. -/
def alookup {α : Type} (m : List (String × α)) (k : String) : Option α :=
  (m.find? (fun p => decide (p.1 = k))).map (fun p => p.2)

/-- The per-group leg of `computeTimeBoxedStats` (scheduler.ts lines 755-801):
returns the group's stats record together with its `matchCounts` list (which
the source also appends to `allMatchCounts`). -/
def groupTimeBoxedStatsFor (entriesByGroup : List (String × List ScheduleEntry))
    (group : Group) : GroupTimeBoxedStats × List Nat :=
  let groupEntries := (alookup entriesByGroup group.id).getD []
  let counts0 := group.athletes.foldl (fun m a => upsertLast m a.id 0) ([] : List (String × Nat))
  let counts := groupEntries.foldl (fun m e =>
    let m1 := upsertLast m e.athlete1Id (((alookup m e.athlete1Id).getD 0) + 1)
    upsertLast m1 e.athlete2Id (((alookup m1 e.athlete2Id).getD 0) + 1)) counts0
  let matchCounts := counts.map (fun p => p.2)
  let minMatches := match matchCounts with | [] => 0 | x :: xs => xs.foldl min x
  let maxMatches := match matchCounts with | [] => 0 | x :: xs => xs.foldl max x
  let sumMatches := matchCounts.foldl (fun a b => a + b) 0
  let avgMatches :=
    if 0 < matchCounts.length then Frac.divNat sumMatches matchCounts.length else Frac.ofNat 0
  let theoreticalMax := combinations group.athletes.length
  let completeness :=
    if 0 < theoreticalMax then Frac.mulNat (Frac.divNat groupEntries.length theoreticalMax) 100
    else Frac.ofNat 100
  ({ groupId := group.id
     groupName := group.name
     athleteCount := group.athletes.length
     totalMatches := groupEntries.length
     theoreticalMax := theoreticalMax
     completenessPercentage := completeness
     minMatchesPerAthlete := minMatches
     maxMatchesPerAthlete := maxMatches
     avgMatchesPerAthlete := avgMatches
     matchCountGap := maxMatches - minMatches }, matchCounts)

/-- The body of `computeTimeBoxedStats` (scheduler.ts lines 712-840) once the
event's window bounds have been parsed (the source re-parses the same two
strings it already parsed in `generateTimeBoxedSchedule`; `parseTime` is
deterministic, so passing the parsed values is equivalent). -/
def computeTimeBoxedStatsCore (entries : List ScheduleEntry) (event : Event)
    (startT endT : Nat) : TimeBoxedStats :=
  let allGroups := event.areas.flatMap (fun a => a.groups)
  let groupsList := allGroups.foldl (fun m g => upsertLast m g.id g) []
  let entriesByGroup0 :=
    allGroups.foldl (fun m g => upsertLast m g.id ([] : List ScheduleEntry)) []
  let entriesByGroup := entries.foldl (fun m e =>
    if m.any (fun p => decide (p.1 = e.groupId)) then
      m.map (fun p => if p.1 = e.groupId then (p.1, p.2 ++ [e]) else p)
    else m) entriesByGroup0
  let pairMatchCounts := entries.foldl (fun (m : List (String × Nat)) e =>
    let pairKey :=
      if decide (e.athlete1Id ≤ e.athlete2Id) then e.athlete1Id ++ ("-") ++ e.athlete2Id
      else e.athlete2Id ++ ("-") ++ e.athlete1Id
    upsertLast m pairKey (((alookup m pairKey).getD 0) + 1)) []
  let rematchesCount :=
    pairMatchCounts.foldl (fun acc p => if 1 < p.2 then acc + (p.2 - 1) else acc) 0
  let perGroup := groupsList.map (fun gp => groupTimeBoxedStatsFor entriesByGroup gp.2)
  let groupStats := perGroup.map (fun p => p.1)
  let allMatchCounts := perGroup.flatMap (fun p => p.2)
  let globalMin := match allMatchCounts with | [] => 0 | x :: xs => xs.foldl min x
  let globalMax := match allMatchCounts with | [] => 0 | x :: xs => xs.foldl max x
  let globalSum := allMatchCounts.foldl (fun a b => a + b) 0
  let globalAvg :=
    if 0 < allMatchCounts.length then Frac.divNat globalSum allMatchCounts.length
    else Frac.ofNat 0
  let totalTheoretical := groupStats.foldl (fun acc g => acc + g.theoreticalMax) 0
  let totalScheduled := entries.length
  let overallCompleteness :=
    if 0 < totalTheoretical then Frac.mulNat (Frac.divNat totalScheduled totalTheoretical) 100
    else Frac.ofNat 100
  let timeAvailable : Int := (endT : Int) - startT
  let timeUsed : Int :=
    match entries.head?, entries.getLast? with
    | some first, some last => (last.endTimeSeconds : Int) - first.startTimeSeconds
    | _, _ => 0
  let timeUtilization :=
    if 0 < timeAvailable then Frac.mulNat (Frac.divInt timeUsed timeAvailable.toNat) 100
    else Frac.ofNat 0
  { minMatchesPerAthlete := globalMin
    maxMatchesPerAthlete := globalMax
    avgMatchesPerAthlete := globalAvg
    matchCountGap := globalMax - globalMin
    groupStats := groupStats
    totalMatchesScheduled := totalScheduled
    totalTheoreticalMatches := totalTheoretical
    overallCompletenessPercentage := overallCompleteness
    rematchesCount := rematchesCount
    timeUsedSeconds := timeUsed
    timeAvailableSeconds := timeAvailable
    timeUtilizationPercentage := timeUtilization }

/-- `computeTimeBoxedStats` (scheduler.ts lines 712-840); `none` models the
`parseTime` exception on unparseable window bounds. -/
def computeTimeBoxedStats (entries : List ScheduleEntry) (event : Event) : Option TimeBoxedStats :=
  match parseTime? event.startTime, parseTime? event.endTime with
  | some startT, some endT => some (computeTimeBoxedStatsCore entries event startT endT)
  | _, _ => none

/-! ### Time-boxed entry point (`generateTimeBoxedSchedule`, scheduler.ts lines 846-995) -/

/-- The fatal warning of the hard-feasibility check (scheduler.ts lines
857-863; message text transliterated to ASCII). -/
def timeOverflowWarning (event : Event) : Warning :=
  { type := "TIME_OVERFLOW"
    severity := "error"
    message := "Temps insuffisant : impossible de planifier meme un seul combat."
    affectedItems := [event.id]
    suggestion := some ("Augmenter la duree de l evenement ou reduire la duree des combats.") }

/-- The per-area warning emitted when no group of the area has at least two
athletes (scheduler.ts lines 891-896). -/
def noValidGroupsWarning (area : Area) : Warning :=
  { type := "INFO"
    severity := "warning"
    message := area.name ++ (" : aucun groupe avec au moins 2 athletes, aucun combat planifie.")
    affectedItems := [area.id]
    suggestion := none }

/-- Truncating one-decimal rendering standing in for `Number.toFixed(1)`
(display only; no consumer inspects the text). -/
def fracToFixed1 (x : Frac) : String :=
  let scaled : Int := Int.fdiv (x.num * 10) x.den
  toString (Int.fdiv scaled 10) ++ (".") ++ toString (Int.emod scaled 10)

/-- The equity warning (scheduler.ts lines 956-964). -/
def equityWarning (event : Event) (stats : TimeBoxedStats) : Warning :=
  { type := "INFO"
    severity := "warning"
    message := ("Equite non optimale : ecart de ") ++ toString stats.matchCountGap
      ++ (" combats entre athletes (min: ") ++ toString stats.minMatchesPerAthlete
      ++ (", max: ") ++ toString stats.maxMatchesPerAthlete ++ (").")
    affectedItems := [event.id]
    suggestion := some ("Augmenter la duree de l evenement ou reduire la taille des groupes pour ameliorer l equite.") }

/-- The low-completeness warning (scheduler.ts lines 967-975). -/
def completenessWarning (event : Event) (stats : TimeBoxedStats) : Warning :=
  { type := "INFO"
    severity := "warning"
    message := ("Completude faible : seulement ")
      ++ fracToFixed1 stats.overallCompletenessPercentage
      ++ ("% du planning complet theorique a pu etre planifie.")
    affectedItems := [event.id]
    suggestion := some ("Augmenter la duree de l evenement pour permettre plus de combats.") }

/-- The empty stats record returned with the fatal TIME_OVERFLOW schedule. -/
def emptyScheduleStats : ScheduleStats :=
  { totalMatches := 0, totalDuration := 0, areaStats := [], athleteStats := [],
    timeBoxedStats := none }

/-- One area's contribution to the generation pass (scheduler.ts lines
884-911): skip an area without groups, warn when no group has at least two
athletes, otherwise schedule the `validGroups`. -/
def areaPassStep (genId : String → String) (fightDuration rotationTime startTimeSeconds
    endTimeSeconds minRestSeconds : Nat) (area : Area) : List Warning × List ScheduleEntry :=
  if area.groups.length = 0 then ([], [])
  else
    let validGroups := area.groups.filter (fun g => decide (2 ≤ g.athletes.length))
    if validGroups.length = 0 then ([noValidGroupsWarning area], [])
    else
      ([], scheduleTimeBoxedMatchesForArea genId area validGroups fightDuration rotationTime
        startTimeSeconds endTimeSeconds minRestSeconds)

/-- The body of `generateTimeBoxedSchedule` (scheduler.ts lines 846-995) once
the event's window bounds have been parsed.  The source computes
`computeTimeBoxedStats(allEntries, event)`, which re-parses the two window
strings; under the surrounding successful parse those calls return exactly
`startTimeSeconds` / `endTimeSeconds` again, so the call equals
`computeTimeBoxedStatsCore`. -/
def generateTimeBoxedScheduleCore (genId : String → String) (event : Event)
    (startTimeSeconds endTimeSeconds : Nat) : ScheduleResult :=
  let minRestSeconds := event.minRestBetweenFightsSeconds.getD 0
  if startTimeSeconds + event.fightDuration > endTimeSeconds then
    let warnings := [timeOverflowWarning event]
    { schedule :=
        { eventId := event.id, entries := [], stats := emptyScheduleStats,
          warnings := warnings }
      warnings := warnings }
  else
    let areaPass := event.areas.foldl (fun (acc : List Warning × List ScheduleEntry) area =>
      (acc.1 ++ (areaPassStep genId event.fightDuration event.rotationTime startTimeSeconds
          endTimeSeconds minRestSeconds area).1,
       acc.2 ++ (areaPassStep genId event.fightDuration event.rotationTime startTimeSeconds
          endTimeSeconds minRestSeconds area).2)) ([], [])
    let allEntries := areaPass.2
    let timeBoxedStats :=
      computeTimeBoxedStatsCore allEntries event startTimeSeconds endTimeSeconds
    let allAthletes := event.areas.flatMap (fun a => a.groups.flatMap (fun g => g.athletes))
    let groupsMapFn : String → Option Group := fun gid =>
      ((event.areas.flatMap (fun a => a.groups)).reverse.find?
        (fun g => decide (g.id = gid)))
    let athleteStats := computeAthleteStats allEntries allAthletes groupsMapFn minRestSeconds
    let areaStats := event.areas.map (fun area =>
      let areaEntries := allEntries.filter (fun e => decide (e.areaId = area.id))
      let duration : Int :=
        match areaEntries.head?, areaEntries.getLast? with
        | some first, some last => (last.endTimeSeconds : Int) - first.startTimeSeconds
        | _, _ => 0
      let available : Int := (endTimeSeconds : Int) - startTimeSeconds
      { areaId := area.id, areaName := area.name, matchCount := areaEntries.length,
        duration := duration, marginOrOverflow := available - duration })
    let restWarnings := validateMinRestBetweenFights allEntries allAthletes minRestSeconds
    let equityWarnings :=
      if 2 < timeBoxedStats.matchCountGap then [equityWarning event timeBoxedStats] else []
    let completenessWarnings :=
      if Frac.lt timeBoxedStats.overallCompletenessPercentage (Frac.ofNat 50) then
        [completenessWarning event timeBoxedStats]
      else []
    let warnings := areaPass.1 ++ restWarnings ++ equityWarnings ++ completenessWarnings
    let totalDuration : Int :=
      match allEntries.head?, allEntries.getLast? with
      | some first, some last => (last.endTimeSeconds : Int) - first.startTimeSeconds
      | _, _ => 0
    { schedule :=
        { eventId := event.id
          entries := allEntries
          stats :=
            { totalMatches := allEntries.length
              totalDuration := totalDuration
              areaStats := areaStats
              athleteStats := athleteStats
              timeBoxedStats := some timeBoxedStats }
          warnings := warnings }
      warnings := warnings }

/-- `generateTimeBoxedSchedule` (scheduler.ts lines 846-995); `none` models
the `parseTime` exception on unparseable window bounds. -/
def generateTimeBoxedSchedule (genId : String → String) (event : Event) : Option ScheduleResult :=
  match parseTime? event.startTime, parseTime? event.endTime with
  | some startTimeSeconds, some endTimeSeconds =>
    some (generateTimeBoxedScheduleCore genId event startTimeSeconds endTimeSeconds)
  | _, _ => none

/-! ### Derived definitions used by the verification -/

/-- A pair enumerated by `findBestPairForGroup` that is eligible at clock `t`
(both athletes available) and is not a rematch (neither has fought the
other): the "new-opponent" candidates of scheduler.ts lines 477-507. -/
def eligibleNewPair (state : GroupSchedulingState) (t : Nat) (p : Athlete × Athlete) : Prop :=
  (state.athleteStates p.1.id).availableAt ≤ t ∧
  (state.athleteStates p.2.id).availableAt ≤ t ∧
  (state.athleteStates p.1.id).opponents.contains p.2.id = false

instance (state : GroupSchedulingState) (t : Nat) (p : Athlete × Athlete) :
    Decidable (eligibleNewPair state t p) :=
  inferInstanceAs (Decidable ((state.athleteStates p.1.id).availableAt ≤ t ∧
    (state.athleteStates p.2.id).availableAt ≤ t ∧
    (state.athleteStates p.1.id).opponents.contains p.2.id = false))

/-- Structural facts holding of every entry the time-boxed area loop emits:
it ends inside the window, carries the area's id, lasts exactly the match
duration, and pairs two athletes of one of the scheduled groups. -/
def entryProp (area : Area) (groups : List Group) (fightDuration endT : Nat)
    (e : ScheduleEntry) : Prop :=
  e.endTimeSeconds ≤ endT ∧ e.areaId = area.id ∧
  e.startTimeSeconds + fightDuration = e.endTimeSeconds ∧
  ∃ g ∈ groups, g.id = e.groupId ∧
    e.athlete1Id ∈ g.athletes.map (fun a => a.id) ∧
    e.athlete2Id ∈ g.athletes.map (fun a => a.id)

/-- The entries of `entries` involving athlete id `aid` (the filter used by
the validator and the statistics engine). -/
def athleteEntries (aid : String) (entries : List ScheduleEntry) : List ScheduleEntry :=
  entries.filter (fun e => decide (e.athlete1Id = aid ∨ e.athlete2Id = aid))

/-- Relation between consecutive scheduled matches of one athlete: the next
starts strictly later and only after the minimum rest has elapsed. -/
def restOrdered (minRest : Nat) (p q : ScheduleEntry) : Prop :=
  p.startTimeSeconds < q.startTimeSeconds ∧ p.endTimeSeconds + minRest ≤ q.startTimeSeconds

/-- The athlete-id lists of the groups of an event, flattened in order. -/
def eventGroups (event : Event) : List Group := event.areas.flatMap (fun a => a.groups)

/-- All athlete ids of a group. -/
def groupIds (g : Group) : List String := g.athletes.map (fun a => a.id)

/-! Closed form of the rotating index list of the circle method, used to
settle the round-robin claims.  `valAt M r p` is the roster position stored
at index-list position `p` after `r` rotations of the initial list
`[0, …, M-1]` (first position fixed, the rest rotating with period `M-1`). -/

/-- Value at position `p` of the index list after `r` rotations. -/
def valAt (M r p : Nat) : Nat :=
  if p = 0 then 0 else ((p - 1) + (M - 1) - r % (M - 1)) % (M - 1) + 1

/-- The index list after `r` rotations, in closed form. -/
def closedIdx (M r : Nat) : List Nat :=
  0 :: (List.range (M - 1)).map (fun j => (j + (M - 1) - r % (M - 1)) % (M - 1) + 1)

/-- `r`-fold application of `rotateIdx`. -/
def rotIterN : Nat → List Nat → List Nat
  | 0, l => l
  | k + 1, l => rotateIdx (rotIterN k l)

/-- The index pairs read off in round `r` (position `i` against position
`M - 1 - i`). -/
def roundIdxPairs (M r : Nat) : List (Nat × Nat) :=
  (List.range (M / 2)).map (fun i => (valAt M r i, valAt M r (M - 1 - i)))

/-- Order-normalised form of an unordered pair. -/
def normPair (p : Nat × Nat) : Nat × Nat := if p.1 ≤ p.2 then p else (p.2, p.1)

/-- All normalised pairs `(x, y)` with `x < y < M`, listed by increasing `y`. -/
def allPairsBelow (M : Nat) : List (Nat × Nat) :=
  (List.range M).flatMap (fun y => (List.range y).map (fun x => (x, y)))

/-- The flattened positions `[0, M-1, 1, M-2, …]` paired within one round. -/
def flatRoundPositions (M : Nat) : List Nat :=
  (List.range (M / 2)).flatMap (fun i => [i, M - 1 - i])

/-- Default athlete for total lookups (never reached on valid positions). -/
def dummyAthlete : Athlete := ⟨"", "", ""⟩

/-- The id of the participant stored at roster position `v`. -/
def pid (P : List Athlete) (v : Nat) : String := (P.getD v dummyAthlete).id

/-- The match the generator builds from roster positions `v` and `w` in cycle
`c`, round `r` — `none` exactly when one of the two participants is the BYE
(the generator drops such matches). -/
def mkMatchAt (genId : String → String) (P : List Athlete) (gid : String)
    (c r v w : Nat) : Option Match :=
  if pid P v = byeId ∨ pid P w = byeId then none
  else some
    { id := genId (("match_") ++ gid ++ ("_c") ++ toString c ++ ("_r") ++ toString r)
      groupId := gid
      athlete1Id := pid P v
      athlete2Id := pid P w
      cycle := c }

/-- Whether the position pair `p` survives the BYE filter. -/
def keepPair (P : List Athlete) (p : Nat × Nat) : Bool :=
  !(decide (pid P p.1 = byeId) || decide (pid P p.2 = byeId))

/-- Whether the position pair `p` carries the unordered athlete-id pair
`{aId, bId}` (in either order). -/
def pairHits (P : List Athlete) (aId bId : String) (p : Nat × Nat) : Bool :=
  (decide (pid P p.1 = aId) && decide (pid P p.2 = bId))
    || (decide (pid P p.1 = bId) && decide (pid P p.2 = aId))

/-- The match pairs `aId` against `bId`, in either order. -/
def matchBetween (aId bId : String) (m : Match) : Prop :=
  (m.athlete1Id = aId ∧ m.athlete2Id = bId) ∨ (m.athlete1Id = bId ∧ m.athlete2Id = aId)

instance (aId bId : String) (m : Match) : Decidable (matchBetween aId bId m) := by
  unfold matchBetween
  exact inferInstance

/-- The order-normalised index pairs of round `r`, one per generated position
pair. -/
def normRoundPairs (M r : Nat) : List (Nat × Nat) :=
  (roundIdxPairs M r).map normPair

/-- All order-normalised index pairs of one full cycle. -/
def allRoundPairs (M : Nat) : List (Nat × Nat) :=
  (List.range (M - 1)).flatMap (fun r => normRoundPairs M r)

/-! Concrete data used by the closed witness theorems. -/

def wA : Athlete := ⟨"A", "Alice", "g1"⟩
def wB : Athlete := ⟨"B", "Bob", "g1"⟩
def wC : Athlete := ⟨"C", "Carol", "g2"⟩
def wD : Athlete := ⟨"D", "Dave", "g1"⟩

/-- Group of two athletes (ids `A`, `B`). -/
def wGroup2 : Group := ⟨"g1", "Group 1", "a1", [wA, wB]⟩

/-- Group of a single athlete (id `C`): too small to schedule. -/
def wGroup1 : Group := ⟨"g2", "Group 2", "a1", [wC]⟩

/-- Area holding one schedulable and one too-small group. -/
def wAreaMixed : Area := ⟨"a1", "Area 1", [wGroup2, wGroup1]⟩

/-- Event with a mixed area: a 60-second window fitting exactly one
60-second match, no rotation, no rest requirement. -/
def evMixed : Event := ⟨"e1", "Event 1", "2025-01-01", 60, 0, "00:01", "00:02", [wAreaMixed], none⟩

/-- Area holding only the too-small group. -/
def wAreaSmall : Area := ⟨"a2", "Area 2", [wGroup1]⟩

/-- Event whose single area has no schedulable group. -/
def evSmall : Event := ⟨"e2", "Event 2", "2025-01-01", 60, 0, "00:01", "00:02", [wAreaSmall], none⟩

/-- Roster of four athletes of one group. -/
def wGroup4 : Group := ⟨"g4", "Group 4", "a4", [⟨"A", "Alice", "g4"⟩, ⟨"B", "Bob", "g4"⟩,
  ⟨"C", "Carol", "g4"⟩, ⟨"D", "Dave", "g4"⟩]⟩

def wArea4 : Area := ⟨"a4", "Area 4", [wGroup4]⟩

/-- The schedule computed for `evMixed` under the identity id source. -/
def evMixedResult : ScheduleResult :=
  generateTimeBoxedScheduleCore (fun s => s) evMixed 60 120

/-- Event with the two-athlete group only, a 120-second minimum rest and a
four-minute window: the greedy loop schedules a match, stalls, advances the
clock to the athletes' availability and schedules the rematch. -/
def evRest : Event := ⟨"e4", "Event 4", "2025-01-01", 60, 0, "00:01", "00:05",
  [⟨"a3", "Area 3", [wGroup2]⟩], some 120⟩

/-- The schedule computed for `evRest` under the identity id source. -/
def evRestResult : ScheduleResult :=
  generateTimeBoxedScheduleCore (fun s => s) evRest 60 300

/-- Event whose window cannot fit a single match (Scenario C). -/
def evOverflow : Event :=
  ⟨"e5", "Event 5", "2025-01-01", 120, 0, "09:00", "09:01", [wArea4], none⟩

/-- Scheduling state over two athletes `A`, `B` in which both are available
at time 60 and have never met (used to witness the pair-selection claim). -/
def wFreshState : GroupSchedulingState :=
  { groupId := "g1"
    athleteStates := fun aid =>
      { athleteId := aid, matchCount := 0, opponents := [], lastMatchEndTime := 0,
        availableAt := 0 }
    totalMatches := 0
    lastScheduledTime := 0 }

/-- A concrete schedule entry (athletes `A` and `B`, 60-120 seconds). -/
def wEntryAB : ScheduleEntry :=
  { id := "s1", areaId := "a1", groupId := "g1", matchId := "m1", sequenceNumber := 1,
    scheduledTime := "00:01", startTimeSeconds := 60, endTimeSeconds := 120,
    athlete1Id := "A", athlete2Id := "B", athlete1Name := "Alice", athlete2Name := "Bob",
    roundNumber := none }

/-- Lookup sending every group id to the mixed-area group of two. -/
def wGroupsMapFn : String → Option Group := fun _ => some wGroup2

/-- The schedule computed for `evSmall` under the identity id source. -/
def evSmallResult : ScheduleResult :=
  generateTimeBoxedScheduleCore (fun s => s) evSmall 60 120

/-- The stats record `computeAthleteStats` produces for athlete `A` given the
single entry `wEntryAB`. -/
def wStatA : AthleteStats :=
  { athleteId := "A", athleteName := "Alice", groupId := "g1", groupName := "Group 1",
    matchCount := 1, minRestSeconds := 0, maxRestSeconds := 0,
    avgRestSeconds := Frac.ofNat 0, totalRestSeconds := 0, consecutiveMatchesCount := 0 }

/-! ## General lemmas -/

lemma foldl_preserve {α β : Type _} {P : β → Prop} {f : β → α → β}
    (hf : ∀ b a, P b → P (f b a)) : ∀ (l : List α) (b : β), P b → P (l.foldl f b) := by
  intro l
  induction l with
  | nil => intro b hb; simpa using hb
  | cons a l ih => intro b hb; rw [List.foldl_cons]; exact ih _ (hf _ _ hb)

lemma foldl_append_pair {α β γ : Type _} (f : α → List β × List γ) :
    ∀ (l : List α) (acc : List β × List γ),
      l.foldl (fun acc a => (acc.1 ++ (f a).1, acc.2 ++ (f a).2)) acc
        = (acc.1 ++ l.flatMap (fun a => (f a).1), acc.2 ++ l.flatMap (fun a => (f a).2)) := by
  intro l
  induction l with
  | nil => intro acc; simp
  | cons a l ih =>
    intro acc
    rw [List.foldl_cons, ih, List.flatMap_cons, List.flatMap_cons]
    simp [List.append_assoc]

lemma head?_insertionSort_mem {α : Type _} (r : α → α → Prop) [DecidableRel r]
    {l : List α} {a : α} (h : (List.insertionSort r l).head? = some a) : a ∈ l := by
  have ha : a ∈ List.insertionSort r l := List.mem_of_mem_head? (Option.mem_def.mpr h)
  exact (List.perm_insertionSort r l).mem_iff.mp ha

lemma mem_of_getLast?_eq {α : Type _} {l : List α} {a : α} (h : l.getLast? = some a) :
    a ∈ l := by
  rw [List.getLast?_eq_getElem?] at h
  exact List.getElem?_mem h

lemma sublist_flatMap_mono {α β : Type _} (f : α → List β) {l1 l2 : List α}
    (h : l1.Sublist l2) : (l1.flatMap f).Sublist (l2.flatMap f) := by
  induction h with
  | slnil => exact List.Sublist.refl _
  | cons a h ih =>
    refine ih.trans ?_
    rw [List.flatMap_cons]
    exact List.sublist_append_right _ _
  | cons₂ a h ih =>
    rw [List.flatMap_cons, List.flatMap_cons]
    exact ih.append_left _

lemma pairsInOrder_mem {α : Type _} : ∀ {l : List α} {p : α × α},
    p ∈ pairsInOrder l → p.1 ∈ l ∧ p.2 ∈ l := by
  intro l
  induction l with
  | nil => intro p hp; simp [pairsInOrder] at hp
  | cons x xs ih =>
    intro p hp
    rw [pairsInOrder, List.mem_append] at hp
    rcases hp with hp | hp
    · rcases List.mem_map.mp hp with ⟨y, hy, hyp⟩
      subst hyp
      exact ⟨List.mem_cons_self x xs, List.mem_cons_of_mem x hy⟩
    · rcases ih hp with ⟨h1, h2⟩
      exact ⟨List.mem_cons_of_mem x h1, List.mem_cons_of_mem x h2⟩

/-! ## Facts about the pair selector -/

lemma mkCandidate_eq_some {state : GroupSchedulingState} {avg : Frac} {t : Nat}
    {p : Athlete × Athlete} {c : CandidatePair} (h : mkCandidate state avg t p = some c) :
    c.athlete1 = p.1 ∧ c.athlete2 = p.2 ∧
    (state.athleteStates p.1.id).availableAt ≤ t ∧
    (state.athleteStates p.2.id).availableAt ≤ t ∧
    c.isRematch = (state.athleteStates p.1.id).opponents.contains p.2.id := by
  simp only [mkCandidate] at h
  split at h
  · exact absurd h (by simp)
  · next hcond =>
    push_neg at hcond
    rcases Option.some_inj.mp h with rfl
    exact ⟨rfl, rfl, hcond.1, hcond.2, rfl⟩

lemma mkCandidate_of_available {state : GroupSchedulingState} {avg : Frac} {t : Nat}
    {p : Athlete × Athlete} (h1 : (state.athleteStates p.1.id).availableAt ≤ t)
    (h2 : (state.athleteStates p.2.id).availableAt ≤ t) :
    ∃ c, mkCandidate state avg t p = some c ∧
      c.isRematch = (state.athleteStates p.1.id).opponents.contains p.2.id := by
  unfold mkCandidate
  rw [if_neg (by push_neg; exact ⟨h1, h2⟩)]
  exact ⟨_, rfl, rfl⟩

lemma findBestPairForGroup_some {group : Group} {state : GroupSchedulingState} {t m : Nat}
    {c : CandidatePair} (h : findBestPairForGroup group state t m = some c) :
    ∃ p ∈ pairsInOrder group.athletes,
      c.athlete1 = p.1 ∧ c.athlete2 = p.2 ∧
      (state.athleteStates p.1.id).availableAt ≤ t ∧
      (state.athleteStates p.2.id).availableAt ≤ t ∧
      c.isRematch = (state.athleteStates p.1.id).opponents.contains p.2.id := by
  unfold findBestPairForGroup at h
  have hc := head?_insertionSort_mem candLe h
  have hcands : c ∈ (pairsInOrder group.athletes).filterMap
      (mkCandidate state (groupAvgMatchCount group state) t) := by
    split_ifs at hc with h1 h2
    · exact (List.mem_filter.mp hc).1
    · exact (List.mem_filter.mp hc).1
    · simp at hc
  rcases List.mem_filterMap.mp hcands with ⟨p, hp, hmk⟩
  exact ⟨p, hp, mkCandidate_eq_some hmk⟩

/-! ## Facts about the main loop and the generation entry point -/

lemma computeNextAvailable_lb (groups : List Group) (gs : String → GroupSchedulingState)
    (t endT : Nat) :
    t < computeNextAvailable groups gs t endT ∨ endT ≤ computeNextAvailable groups gs t endT := by
  unfold computeNextAvailable
  refine foldl_preserve (P := fun acc => t < acc ∨ endT ≤ acc) ?_ groups endT (Or.inr le_rfl)
  intro b g hb
  refine foldl_preserve (P := fun acc => t < acc ∨ endT ≤ acc) ?_ g.athletes b hb
  intro b2 a hb2
  dsimp only
  split
  · next hcond => exact Or.inl hcond.1
  · exact hb2

lemma generate_eq_core {genId : String → String} {event : Event} {res : ScheduleResult}
    (h : generateTimeBoxedSchedule genId event = some res) :
    ∃ s e, parseTime? event.startTime = some s ∧ parseTime? event.endTime = some e ∧
      res = generateTimeBoxedScheduleCore genId event s e := by
  unfold generateTimeBoxedSchedule at h
  cases hs : parseTime? event.startTime with
  | none => rw [hs] at h; exact absurd h (by simp)
  | some s =>
    cases he : parseTime? event.endTime with
    | none => rw [hs, he] at h; exact absurd h (by simp)
    | some e =>
      rw [hs, he] at h
      exact ⟨s, e, rfl, rfl, (Option.some_inj.mp h).symm⟩

lemma core_overflow {genId : String → String} {event : Event} {s e : Nat}
    (hov : s + event.fightDuration > e) :
    generateTimeBoxedScheduleCore genId event s e =
      { schedule := { eventId := event.id, entries := [], stats := emptyScheduleStats,
                      warnings := [timeOverflowWarning event] }
        warnings := [timeOverflowWarning event] } := by
  unfold generateTimeBoxedScheduleCore
  rw [if_pos hov]

lemma core_not_overflow_entries {genId : String → String} {event : Event} {s e : Nat}
    (hfits : ¬ s + event.fightDuration > e) :
    (generateTimeBoxedScheduleCore genId event s e).schedule.entries =
      event.areas.flatMap (fun a =>
        (areaPassStep genId event.fightDuration event.rotationTime s e
          (event.minRestBetweenFightsSeconds.getD 0) a).2) := by
  unfold generateTimeBoxedScheduleCore
  rw [if_neg hfits]
  dsimp only
  rw [foldl_append_pair (areaPassStep genId event.fightDuration event.rotationTime s e
    (event.minRestBetweenFightsSeconds.getD 0)) event.areas ([], [])]
  rfl

lemma core_not_overflow_warnings {genId : String → String} {event : Event} {s e : Nat}
    (hfits : ¬ s + event.fightDuration > e) :
    ∃ ws, (generateTimeBoxedScheduleCore genId event s e).warnings =
      (event.areas.flatMap (fun a =>
        (areaPassStep genId event.fightDuration event.rotationTime s e
          (event.minRestBetweenFightsSeconds.getD 0) a).1)) ++ ws := by
  unfold generateTimeBoxedScheduleCore
  rw [if_neg hfits]
  dsimp only
  rw [foldl_append_pair (areaPassStep genId event.fightDuration event.rotationTime s e
    (event.minRestBetweenFightsSeconds.getD 0)) event.areas ([], [])]
  dsimp only
  simp only [List.nil_append, List.append_assoc]
  exact ⟨_, rfl⟩

lemma timeBoxedLoop_entryProp (genId : String → String) (area : Area) (groups : List Group)
    (fight rot endT minRest : Nat) :
    ∀ (fuel t : Nat) (gs : String → GroupSchedulingState) (seq : Nat)
      (acc : List ScheduleEntry),
      (∀ x ∈ acc, entryProp area groups fight endT x) →
      ∀ x ∈ timeBoxedLoop genId area groups fight rot endT minRest fuel t gs seq acc,
        entryProp area groups fight endT x := by
  intro fuel
  induction fuel with
  | zero =>
    intro t gs seq acc hacc x hx
    rw [timeBoxedLoop] at hx
    exact hacc x hx
  | succ n ih =>
    intro t gs seq acc hacc x hx
    rw [timeBoxedLoop] at hx
    split at hx
    · next hle =>
      split at hx
      · next hsel =>
        dsimp only at hx
        split at hx
        · exact hacc x hx
        · exact ih _ _ _ _ hacc x hx
      · next sgid hsel =>
        split at hx
        · exact hacc x hx
        · next sg hfind =>
          split at hx
          · exact hacc x hx
          · next bp hbp =>
            refine ih _ _ _ _ ?_ x hx
            intro y hy
            rcases List.mem_append.mp hy with hy | hy
            · exact hacc y hy
            · have hy' : y = commitEntry genId area sgid bp t fight (seq + 1) := by
                simpa using hy
              subst hy'
              have hsgmem : sg ∈ groups := List.mem_of_find?_eq_some hfind
              have hsgid : sg.id = sgid := by simpa using List.find?_some hfind
              rcases findBestPairForGroup_some hbp with ⟨p, hp, ha1, ha2, _, _, _⟩
              rcases pairsInOrder_mem hp with ⟨hm1, hm2⟩
              refine ⟨by simpa [commitEntry] using hle, rfl, rfl, sg, hsgmem, hsgid, ?_, ?_⟩
              · exact List.mem_map.mpr ⟨p.1, hm1, by rw [commitEntry, ha1]⟩
              · exact List.mem_map.mpr ⟨p.2, hm2, by rw [commitEntry, ha2]⟩
    · exact hacc x hx

lemma scheduleTimeBoxedMatchesForArea_entryProp (genId : String → String) (area : Area)
    (groups : List Group) (fight rot startT endT minRest : Nat) :
    ∀ x ∈ scheduleTimeBoxedMatchesForArea genId area groups fight rot startT endT minRest,
      entryProp area groups fight endT x := by
  intro x hx
  unfold scheduleTimeBoxedMatchesForArea at hx
  exact timeBoxedLoop_entryProp genId area groups fight rot endT minRest _ _ _ _ _
    (by intro y hy; simp at hy) x hx

lemma areaPassStep_entries {genId : String → String} {fight rot s e m : Nat} {area : Area}
    {x : ScheduleEntry} (hx : x ∈ (areaPassStep genId fight rot s e m area).2) :
    entryProp area (area.groups.filter (fun g => decide (2 ≤ g.athletes.length))) fight e x := by
  unfold areaPassStep at hx
  split at hx
  · simp at hx
  · dsimp only at hx
    by_cases hvg : (area.groups.filter (fun g => decide (2 ≤ g.athletes.length))).length = 0
    · rw [if_pos hvg] at hx
      simp at hx
    · rw [if_neg hvg] at hx
      exact scheduleTimeBoxedMatchesForArea_entryProp genId area _ fight rot s e m x hx

lemma newCandidates_pos_iff (group : Group) (state : GroupSchedulingState) (t : Nat) :
    0 < (((pairsInOrder group.athletes).filterMap
        (mkCandidate state (groupAvgMatchCount group state) t)).filter
          (fun c => !c.isRematch)).length ↔
      ∃ p ∈ pairsInOrder group.athletes, eligibleNewPair state t p := by
  constructor
  · intro h0
    rcases List.exists_mem_of_length_pos h0 with ⟨c, hc⟩
    rcases List.mem_filter.mp hc with ⟨hcands, hnew⟩
    rcases List.mem_filterMap.mp hcands with ⟨p, hp, hmk⟩
    rcases mkCandidate_eq_some hmk with ⟨_, _, h1, h2, hrem⟩
    refine ⟨p, hp, h1, h2, ?_⟩
    rw [← hrem]
    simpa using hnew
  · rintro ⟨p, hp, h1, h2, h3⟩
    rcases @mkCandidate_of_available _ (groupAvgMatchCount group state) _ _ h1 h2
      with ⟨c, hmk, hrem⟩
    have hc : c ∈ (pairsInOrder group.athletes).filterMap
        (mkCandidate state (groupAvgMatchCount group state) t) :=
      List.mem_filterMap.mpr ⟨p, hp, hmk⟩
    have hmem : c ∈ ((pairsInOrder group.athletes).filterMap
        (mkCandidate state (groupAvgMatchCount group state) t)).filter
          (fun c => !c.isRematch) :=
      List.mem_filter.mpr ⟨hc, by rw [hrem, h3]; rfl⟩
    exact List.length_pos.mpr (List.ne_nil_of_mem hmem)

/-! ## The claims -/

/-- C7 (divergence witness): on the roster [A, B, C, D] with one cycle the
Pairing Generator emits the rounds of its own doc comment (scheduler.ts
lines 29-32) in reverse order — round 1 is (A-D),(B-C) and round 3 is
(A-B),(C-D) — while the counts (3 rounds, 6 matches) do hold.  This theorem
evaluates the code at the failing input. -/
theorem c7_reversed_rounds_eval :
    ((generateRoundsForGroup (fun s => s) wGroup4.athletes ("g4") 1).map (fun r =>
      (r.roundNumber, r.«matches».map (fun m => (m.athlete1Id, m.athlete2Id))))) =
      [(1, [("A", "D"), ("B", "C")]), (2, [("A", "C"), ("D", "B")]),
       (3, [("A", "B"), ("C", "D")])] ∧
    ((generateRoundsForGroup (fun s => s) wGroup4.athletes ("g4") 1).flatMap
      (fun r => r.«matches»)).length = 6 := by
  exact ⟨by decide, by decide⟩

/-- C5: when the window cannot fit even one match
(`parseTime(startTime) + fightDuration > parseTime(endTime)`),
`generateTimeBoxedSchedule` returns the empty schedule (no entries, zero
total matches, no area processed) carrying exactly one warning, the fatal
TIME_OVERFLOW error. -/
theorem c5_time_overflow_fatal (genId : String → String) (event : Event) (startT endT : Nat)
    (hs : parseTime? event.startTime = some startT)
    (he : parseTime? event.endTime = some endT)
    (hov : startT + event.fightDuration > endT) :
    generateTimeBoxedSchedule genId event =
      some { schedule := { eventId := event.id, entries := [], stats := emptyScheduleStats,
                           warnings := [timeOverflowWarning event] }
             warnings := [timeOverflowWarning event] } ∧
    (timeOverflowWarning event).type = ("TIME_OVERFLOW") ∧
    (timeOverflowWarning event).severity = ("error") ∧
    emptyScheduleStats.totalMatches = 0 := by
  refine ⟨?_, rfl, rfl, rfl⟩
  unfold generateTimeBoxedSchedule
  rw [hs, he]
  exact congrArg some (core_overflow hov)

/-- C5 witness: the concrete Scenario C event (window 09:00-09:01, 120-second
matches). -/
theorem c5_witness :
    (parseTime? evOverflow.startTime = some 32400 ∧
      parseTime? evOverflow.endTime = some 32460 ∧
      32400 + evOverflow.fightDuration > 32460) ∧
    (generateTimeBoxedSchedule (fun s => s) evOverflow =
      some { schedule := { eventId := evOverflow.id, entries := [], stats := emptyScheduleStats,
                           warnings := [timeOverflowWarning evOverflow] }
             warnings := [timeOverflowWarning evOverflow] } ∧
      (timeOverflowWarning evOverflow).type = ("TIME_OVERFLOW") ∧
      (timeOverflowWarning evOverflow).severity = ("error") ∧
      emptyScheduleStats.totalMatches = 0) :=
  ⟨⟨by decide, by decide, by decide⟩,
    c5_time_overflow_fatal (fun s => s) evOverflow 32400 32460 (by decide) (by decide)
      (by decide)⟩

/-- C9: `generateTimeBoxedSchedule` is a pure function of the event and the
injected deterministic id source — two invocations on identical input
produce identical results: the same entries in the same order, the same
stats and the same warnings. -/
theorem c9_deterministic (genId : String → String) (event : Event)
    (r1 r2 : Option ScheduleResult)
    (h1 : generateTimeBoxedSchedule genId event = r1)
    (h2 : generateTimeBoxedSchedule genId event = r2) : r1 = r2 := by
  rw [← h1, ← h2]

/-- C9 witness: two runs on the mixed-area event. -/
theorem c9_witness :
    generateTimeBoxedSchedule (fun s => s) evMixed
      = generateTimeBoxedSchedule (fun s => s) evMixed :=
  c9_deterministic (fun s => s) evMixed _ _ rfl rfl

/-- C10: every stats record `computeAthleteStats` returns belongs to an
athlete appearing in at least one schedule entry; an athlete with zero
scheduled matches is omitted entirely rather than reported with
`matchCount = 0`. -/
theorem c10_stats_only_for_scheduled (entries : List ScheduleEntry) (athletes : List Athlete)
    (groupsMap : String → Option Group) (minRest : Nat) :
    ∀ s ∈ computeAthleteStats entries athletes groupsMap minRest,
      ∃ x ∈ entries, x.athlete1Id = s.athleteId ∨ x.athlete2Id = s.athleteId := by
  suffices h : ∀ (l : List Athlete) (acc : List AthleteStats),
      (∀ s ∈ acc, ∃ x ∈ entries, x.athlete1Id = s.athleteId ∨ x.athlete2Id = s.athleteId) →
      ∀ s ∈ l.foldl (athleteStatsStep entries groupsMap minRest) acc,
        ∃ x ∈ entries, x.athlete1Id = s.athleteId ∨ x.athlete2Id = s.athleteId by
    intro s hs
    exact h athletes [] (by simp) s hs
  intro l
  induction l with
  | nil => intro acc hacc s hs; exact hacc s (by simpa using hs)
  | cons a l ih =>
    intro acc hacc s hs
    rw [List.foldl_cons] at hs
    refine ih _ ?_ s hs
    intro s' hs'
    simp only [athleteStatsStep] at hs'
    split at hs'
    · exact hacc s' hs'
    · next hlen =>
      split at hs'
      · exact hacc s' hs'
      · next group hgrp =>
        rcases List.mem_append.mp hs' with hs' | hs'
        · exact hacc s' hs'
        · have hsid : s'.athleteId = a.id := by
            have : s' = _ := List.mem_singleton.mp hs'
            rw [this]
          have hpos : 0 < (List.insertionSort entryLe (entries.filter
              (fun x => decide (x.athlete1Id = a.id ∨ x.athlete2Id = a.id)))).length :=
            Nat.pos_of_ne_zero hlen
          rcases List.exists_mem_of_length_pos hpos with ⟨x, hx⟩
          have hx2 : x ∈ entries.filter
              (fun x => decide (x.athlete1Id = a.id ∨ x.athlete2Id = a.id)) :=
            (List.perm_insertionSort entryLe _).mem_iff.mp hx
          rcases List.mem_filter.mp hx2 with ⟨hxe, hxp⟩
          refine ⟨x, hxe, ?_⟩
          rw [hsid]
          exact of_decide_eq_true hxp

/-- C10 witness: athlete `A` with one scheduled entry. -/
theorem c10_witness :
    (wStatA ∈ computeAthleteStats [wEntryAB] [wA] wGroupsMapFn 0) ∧
    (∃ x ∈ [wEntryAB], x.athlete1Id = wStatA.athleteId ∨ x.athlete2Id = wStatA.athleteId) :=
  ⟨by decide, c10_stats_only_for_scheduled [wEntryAB] [wA] wGroupsMapFn 0 wStatA (by decide)⟩

/-- C2: every entry the time-boxed scheduler emits ends no later than the
parsed window end `parseTime(event.endTime)`. -/
theorem c2_entries_within_window (genId : String → String) (event : Event)
    (res : ScheduleResult) (endT : Nat)
    (h : generateTimeBoxedSchedule genId event = some res)
    (he : parseTime? event.endTime = some endT) :
    ∀ x ∈ res.schedule.entries, x.endTimeSeconds ≤ endT := by
  rcases generate_eq_core h with ⟨s, e, hs', he', hres⟩
  have heq : e = endT := by rw [he'] at he; exact Option.some_inj.mp he
  rw [heq] at hres
  subst hres
  by_cases hov : s + event.fightDuration > endT
  · rw [core_overflow hov]
    intro x hx
    simp at hx
  · rw [core_not_overflow_entries hov]
    intro x hx
    rcases List.mem_flatMap.mp hx with ⟨a, _, hxa⟩
    exact (areaPassStep_entries hxa).1

/-- C2 witness: the mixed-area event. -/
theorem c2_witness :
    (generateTimeBoxedSchedule (fun s => s) evMixed = some evMixedResult ∧
      parseTime? evMixed.endTime = some 120) ∧
    (∀ x ∈ evMixedResult.schedule.entries, x.endTimeSeconds ≤ 120) :=
  ⟨⟨by decide, by decide⟩,
    c2_entries_within_window (fun s => s) evMixed evMixedResult 120 (by decide) (by decide)⟩

/-- C4: a rematch is selected only when no new-opponent pair is eligible: if
some enumerated pair of the group is available at the clock and has not met,
any pair `findBestPairForGroup` returns is a new-opponent pair (its athletes
are absent from each other's opponent sets), a rematch result implies no
eligible new-opponent pair exists, and an eligible new-opponent pair
guarantees a (new-opponent) selection. -/
theorem c4_new_opponent_priority (group : Group) (state : GroupSchedulingState)
    (t minRest : Nat) :
    (∀ c, findBestPairForGroup group state t minRest = some c →
      ((∃ p ∈ pairsInOrder group.athletes, eligibleNewPair state t p) →
        c.isRematch = false ∧
        (state.athleteStates c.athlete1.id).opponents.contains c.athlete2.id = false) ∧
      (c.isRematch = true → ∀ p ∈ pairsInOrder group.athletes, ¬ eligibleNewPair state t p)) ∧
    ((∃ p ∈ pairsInOrder group.athletes, eligibleNewPair state t p) →
      ∃ c, findBestPairForGroup group state t minRest = some c ∧ c.isRematch = false) := by
  constructor
  · intro c hfind
    constructor
    · intro hex
      have hpos := (newCandidates_pos_iff group state t).mpr hex
      simp only [findBestPairForGroup] at hfind
      rw [if_pos hpos] at hfind
      have hc := head?_insertionSort_mem candLe hfind
      rcases List.mem_filter.mp hc with ⟨hcands, hnew⟩
      have hcnew : c.isRematch = false := by simpa using hnew
      rcases List.mem_filterMap.mp hcands with ⟨p, _, hmk⟩
      rcases mkCandidate_eq_some hmk with ⟨ha1, ha2, _, _, hrem⟩
      refine ⟨hcnew, ?_⟩
      rw [ha1, ha2, ← hrem]
      exact hcnew
    · intro hrem p hp helig
      have hpos := (newCandidates_pos_iff group state t).mpr ⟨p, hp, helig⟩
      simp only [findBestPairForGroup] at hfind
      rw [if_pos hpos] at hfind
      have hc := head?_insertionSort_mem candLe hfind
      rcases List.mem_filter.mp hc with ⟨_, hnew⟩
      have : c.isRematch = false := by simpa using hnew
      rw [hrem] at this
      exact Bool.true_eq_false.mp this
  · intro hex
    have hpos := (newCandidates_pos_iff group state t).mpr hex
    simp only [findBestPairForGroup]
    set news := ((pairsInOrder group.athletes).filterMap
      (mkCandidate state (groupAvgMatchCount group state) t)).filter
        (fun c => !c.isRematch) with hnews
    rw [if_pos hpos]
    cases hsort : List.insertionSort candLe news with
    | nil =>
      exfalso
      have hlen : news.length = 0 := by
        rw [← (List.perm_insertionSort candLe news).length_eq, hsort]
        rfl
      omega
    | cons c cs =>
      refine ⟨c, rfl, ?_⟩
      have hc : c ∈ List.insertionSort candLe news := by
        rw [hsort]
        exact List.mem_cons_self c cs
      have hc2 := (List.perm_insertionSort candLe news).mem_iff.mp hc
      rw [hnews] at hc2
      rcases List.mem_filter.mp hc2 with ⟨_, hnew⟩
      simpa using hnew

/-- C4 witness: fresh two-athlete group at clock 60. -/
theorem c4_witness :
    (∃ p ∈ pairsInOrder wGroup2.athletes, eligibleNewPair wFreshState 60 p) ∧
    (∃ c, findBestPairForGroup wGroup2 wFreshState 60 0 = some c ∧ c.isRematch = false) :=
  ⟨by decide, (c4_new_opponent_priority wGroup2 wFreshState 60 0).2 (by decide)⟩

/-- C6 counterexample: in `evMixed`, area `a1` holds the schedulable group
`g1` and the one-athlete group `g2`; the run schedules only `g1` (so `g2` is
excluded) but emits NO warning at all — in particular no warning naming the
skipped group `g2` — refuting the claim that a warning is emitted for every
too-small group even when other groups of the area are schedulable. -/
theorem c6_counterexample :
    (generateTimeBoxedSchedule (fun s => s) evMixed).map (fun r =>
      (r.warnings, r.schedule.entries.map (fun x => x.groupId))) = some ([], [("g1")]) ∧
    wGroup1.athletes.length = 1 ∧ wGroup1 ∈ wAreaMixed.groups ∧ wAreaMixed ∈ evMixed.areas := by
  exact ⟨by decide, by decide, by decide, by decide⟩

/-- C6 (amended): groups with fewer than two athletes are excluded from
scheduling (every emitted entry belongs to a group with at least two
athletes), and a warning is emitted only per area — exactly when an area has
groups but none with at least two athletes, a warning naming that area is
attached; skipped small groups of a partially schedulable area get no
warning of their own, and other groups and areas are processed unaffected. -/
theorem c6_small_groups_excluded (genId : String → String) (event : Event)
    (res : ScheduleResult) (startT endT : Nat)
    (h : generateTimeBoxedSchedule genId event = some res)
    (hs : parseTime? event.startTime = some startT)
    (he : parseTime? event.endTime = some endT)
    (hfits : ¬ startT + event.fightDuration > endT) :
    (∀ x ∈ res.schedule.entries, ∃ a ∈ event.areas, ∃ g ∈ a.groups,
        g.id = x.groupId ∧ 2 ≤ g.athletes.length) ∧
    (∀ a ∈ event.areas, a.groups.length ≠ 0 →
      (∀ g ∈ a.groups, g.athletes.length < 2) →
      ∃ w ∈ res.warnings, w.type = ("INFO") ∧ w.severity = ("warning") ∧
        w.affectedItems = [a.id]) := by
  rcases generate_eq_core h with ⟨s, e, hs', he', hres⟩
  have heqs : s = startT := by rw [hs'] at hs; exact Option.some_inj.mp hs
  have heqe : e = endT := by rw [he'] at he; exact Option.some_inj.mp he
  rw [heqs, heqe] at hres
  subst hres
  constructor
  · rw [core_not_overflow_entries hfits]
    intro x hx
    rcases List.mem_flatMap.mp hx with ⟨a, ha, hxa⟩
    rcases areaPassStep_entries hxa with ⟨_, _, _, g, hg, hgid, _, _⟩
    rcases List.mem_filter.mp hg with ⟨hga, hg2⟩
    exact ⟨a, ha, g, hga, hgid, by simpa using hg2⟩
  · rcases @core_not_overflow_warnings genId _ _ _ hfits with ⟨ws, hws⟩
    intro a ha hne hsmall
    refine ⟨noValidGroupsWarning a, ?_, rfl, rfl, rfl⟩
    rw [hws]
    apply List.mem_append_left
    apply List.mem_flatMap.mpr
    refine ⟨a, ha, ?_⟩
    unfold areaPassStep
    rw [if_neg hne]
    dsimp only
    have hnil : a.groups.filter (fun g => decide (2 ≤ g.athletes.length)) = [] :=
      List.filter_eq_nil_iff.mpr (fun g hg => by
        simpa using Nat.not_le.mpr (hsmall g hg))
    rw [if_pos (by rw [hnil]; rfl)]
    exact List.mem_singleton.mpr rfl

/-! ## Circle-method machinery (claims C1 and C8) -/

lemma participantsOf_even (athletes : List Athlete) (gid : String) :
    (participantsOf athletes gid).length % 2 = 0 := by
  unfold participantsOf
  by_cases h : athletes.length % 2 = 1
  · rw [if_pos h]
    simp only [List.length_append, List.length_cons, List.length_nil]
    omega
  · rw [if_neg h]
    simp only [List.length_append, List.length_nil]
    omega

lemma participantsOf_length_ge (athletes : List Athlete) (gid : String) :
    athletes.length ≤ (participantsOf athletes gid).length := by
  unfold participantsOf
  simp only [List.length_append]
  omega

lemma rotateIdx_perm (l : List Nat) : (rotateIdx l).Perm l := by
  cases l with
  | nil => exact List.Perm.refl _
  | cons x xs =>
    cases hgl : xs.getLast? with
    | none =>
      rw [List.getLast?_eq_none_iff] at hgl
      subst hgl
      exact List.Perm.refl _
    | some y =>
      have hne : xs ≠ [] := by
        intro h
        rw [h] at hgl
        simp at hgl
      have hy : xs.getLast hne = y := by
        rw [List.getLast?_eq_getLast xs hne] at hgl
        exact Option.some_inj.mp hgl
      have hrot : rotateIdx (x :: xs) = x :: y :: xs.dropLast := by
        have hdef : rotateIdx (x :: xs) = match xs.getLast? with
          | none => [x]
          | some z => x :: z :: xs.dropLast := rfl
        rw [hdef, hgl]
      rw [hrot]
      refine List.Perm.cons x ?_
      have h2 : xs.dropLast ++ [y] = xs := by
        rw [← hy]
        exact List.dropLast_append_getLast hne
      have h3 := (List.perm_append_singleton y xs.dropLast).symm
      rw [h2] at h3
      exact h3

/-- The invariant carried by the round-generating folds: every accumulated
round was read off an index list satisfying `Q`, and so does the current
index list. -/
def roundsFoldInv (genId : String → String) (P : List Athlete) (gid : String)
    (halfSize : Nat) (Q : List Nat → Prop) (acc : List Round × List Nat) : Prop :=
  (∀ rd ∈ acc.1, ∃ idx c r, Q idx ∧
    rd.«matches» = roundMatchesFromIdx genId P idx gid c r halfSize) ∧ Q acc.2

lemma roundsFold_inner {genId : String → String} {P : List Athlete} {gid : String}
    {numRounds halfSize : Nat} {Q : List Nat → Prop}
    (hrot : ∀ l, Q l → Q (rotateIdx l)) (c : Nat) :
    ∀ (rs : List Nat) (acc : List Round × List Nat),
      roundsFoldInv genId P gid halfSize Q acc →
      roundsFoldInv genId P gid halfSize Q (rs.foldl (fun acc2 r =>
        (acc2.1 ++ [{ roundNumber := (c - 1) * numRounds + r + 1
                      groupId := gid
                      «matches» := roundMatchesFromIdx genId P acc2.2 gid c r halfSize }],
         rotateIdx acc2.2)) acc) := by
  intro rs
  induction rs with
  | nil => intro acc h; exact h
  | cons r rs ih =>
    intro acc h
    rw [List.foldl_cons]
    refine ih _ ⟨?_, hrot _ h.2⟩
    intro rd hrd
    rcases List.mem_append.mp hrd with hrd | hrd
    · exact h.1 rd hrd
    · rcases List.mem_singleton.mp hrd with rfl
      exact ⟨acc.2, c, r, h.2, rfl⟩

lemma roundsFold_outer {genId : String → String} {P : List Athlete} {gid : String}
    {numRounds halfSize : Nat} {Q : List Nat → Prop}
    (hrot : ∀ l, Q l → Q (rotateIdx l)) :
    ∀ (cs : List Nat) (acc : List Round × List Nat),
      roundsFoldInv genId P gid halfSize Q acc →
      roundsFoldInv genId P gid halfSize Q (cs.foldl (fun acc c =>
        (List.range numRounds).foldl (fun acc2 r =>
          (acc2.1 ++ [{ roundNumber := (c - 1) * numRounds + r + 1
                        groupId := gid
                        «matches» := roundMatchesFromIdx genId P acc2.2 gid c r halfSize }],
           rotateIdx acc2.2)) acc) acc) := by
  intro cs
  induction cs with
  | nil => intro acc h; exact h
  | cons c cs ih =>
    intro acc h
    rw [List.foldl_cons]
    exact ih _ (roundsFold_inner hrot c _ _ h)

lemma generateRoundsForGroup_matches {genId : String → String} {athletes : List Athlete}
    {groupId : String} {cycles : Nat} (h2 : 2 ≤ athletes.length) :
    ∀ round ∈ generateRoundsForGroup genId athletes groupId cycles,
      ∃ idx c r, idx.Perm (List.range (participantsOf athletes groupId).length) ∧
        round.«matches» = roundMatchesFromIdx genId (participantsOf athletes groupId) idx
          groupId c r ((participantsOf athletes groupId).length / 2) := by
  intro round hround
  unfold generateRoundsForGroup at hround
  rw [if_neg (by omega)] at hround
  dsimp only at hround
  have hinv := @roundsFold_outer genId (participantsOf athletes groupId) groupId
    ((participantsOf athletes groupId).length - 1)
    ((participantsOf athletes groupId).length / 2)
    (fun idx => idx.Perm (List.range (participantsOf athletes groupId).length))
    (fun l hl => (rotateIdx_perm l).trans hl)
    (List.range' 1 cycles)
    (([], List.range (participantsOf athletes groupId).length))
    ⟨by intro rd hrd; simp at hrd, List.Perm.refl _⟩
  exact hinv.1 round hround

lemma flatRoundPositions_aux (M : Nat) :
    ∀ k, 2 * k ≤ M →
      ((List.range k).flatMap (fun i => [i, M - 1 - i])).Nodup ∧
      ∀ x ∈ (List.range k).flatMap (fun i => [i, M - 1 - i]),
        x < k ∨ (M - k ≤ x ∧ x < M) := by
  intro k
  induction k with
  | zero => intro _; simp
  | succ n ih =>
    intro hk
    have hn := ih (by omega)
    rw [List.range_succ, List.flatMap_append]
    constructor
    · rw [List.nodup_append]
      refine ⟨hn.1, ?_, ?_⟩
      · simp only [List.flatMap_cons, List.flatMap_nil, List.append_nil]
        refine List.nodup_cons.mpr ⟨?_, List.nodup_singleton _⟩
        simp only [List.mem_singleton]
        omega
      · intro x hx hx2
        simp only [List.flatMap_cons, List.flatMap_nil, List.append_nil, List.mem_cons,
          List.mem_singleton, List.not_mem_nil, or_false] at hx2
        rcases hn.2 x hx with h | h <;> rcases hx2 with rfl | rfl <;> omega
    · intro x hx
      rcases List.mem_append.mp hx with hx | hx
      · rcases hn.2 x hx with h | h
        · exact Or.inl (by omega)
        · exact Or.inr (by omega)
      · simp only [List.flatMap_cons, List.flatMap_nil, List.append_nil, List.mem_cons,
          List.mem_singleton, List.not_mem_nil, or_false] at hx
        rcases hx with rfl | rfl
        · exact Or.inl (by omega)
        · exact Or.inr (by omega)

lemma flatRoundPositions_spec (M : Nat) (h : M % 2 = 0) :
    (flatRoundPositions M).Nodup ∧ ∀ x ∈ flatRoundPositions M, x < M := by
  have h2 : 2 * (M / 2) ≤ M := by omega
  rcases flatRoundPositions_aux M (M / 2) h2 with ⟨hnd, hb⟩
  refine ⟨hnd, fun x hx => ?_⟩
  rcases hb x hx with hlt | hlt <;> omega

lemma getElem?_eq_some_getD {α : Type _} (l : List α) (d : α) {n : Nat} (h : n < l.length) :
    l[n]? = some (l.getD n d) := by
  rw [List.getElem?_eq_getElem h, List.getD_eq_getElem?_getD, List.getElem?_eq_getElem h]
  rfl

lemma getD_lt_of_perm_range {M : Nat} {idx : List Nat}
    (hperm : idx.Perm (List.range M)) {p : Nat} (hp : p < M) : idx.getD p 0 < M := by
  have hlen : idx.length = M := by
    rw [hperm.length_eq, List.length_range]
  have hp' : p < idx.length := by omega
  rw [List.getD_eq_getElem?_getD, List.getElem?_eq_getElem hp']
  have : idx[p] ∈ idx := List.getElem_mem hp'
  have := hperm.mem_iff.mp this
  simpa using List.mem_range.mp (by simpa using this)

lemma nodup_map_getD_of_perm_range {M : Nat} {idx : List Nat}
    (hperm : idx.Perm (List.range M)) {ps : List Nat} (hps : ps.Nodup)
    (hbound : ∀ p ∈ ps, p < M) : (ps.map (fun p => idx.getD p 0)).Nodup := by
  have hlen : idx.length = M := by rw [hperm.length_eq, List.length_range]
  have hnd : idx.Nodup := hperm.nodup_iff.mpr (List.nodup_range M)
  refine List.Nodup.map_on ?_ hps
  intro p hp q hq heq
  have hp' : p < idx.length := by have := hbound p hp; omega
  have hq' : q < idx.length := by have := hbound q hq; omega
  rw [List.getD_eq_getElem?_getD, List.getElem?_eq_getElem hp'] at heq
  rw [List.getD_eq_getElem?_getD, List.getElem?_eq_getElem hq'] at heq
  exact hnd.getElem_inj_iff.mp (by simpa using heq)

lemma participantsOf_pid {athletes : List Athlete} {gid : String} {v : Nat}
    (hv : v < (participantsOf athletes gid).length)
    (hbye : pid (participantsOf athletes gid) v ≠ byeId) :
    v < athletes.length ∧
      pid (participantsOf athletes gid) v = (athletes.getD v dummyAthlete).id := by
  unfold pid at *
  unfold participantsOf at *
  by_cases hodd : athletes.length % 2 = 1
  · rw [if_pos hodd] at hv hbye ⊢
    by_cases hva : v < athletes.length
    · refine ⟨hva, ?_⟩
      rw [List.getD_eq_getElem?_getD, List.getElem?_append_left hva,
        ← List.getD_eq_getElem?_getD]
    · exfalso
      have hlen : (athletes ++ [byeAthlete gid]).length = athletes.length + 1 := by simp
      have hveq : v = athletes.length := by omega
      subst hveq
      have hbeq : (athletes ++ [byeAthlete gid]).getD athletes.length dummyAthlete
          = byeAthlete gid := by
        rw [List.getD_eq_getElem?_getD, List.getElem?_append]
        rw [if_neg (by omega)]
        simp
      rw [hbeq] at hbye
      exact hbye rfl
  · rw [if_neg hodd] at hv hbye ⊢
    have hva : v < athletes.length := by
      have := hv
      simp only [List.length_append, List.length_nil] at this
      omega
    refine ⟨hva, ?_⟩
    rw [List.getD_eq_getElem?_getD, List.getElem?_append_left hva, ← List.getD_eq_getElem?_getD]

lemma athletes_getD_id_inj {athletes : List Athlete}
    (hnd : (athletes.map (fun a => a.id)).Nodup) {v w : Nat}
    (hv : v < athletes.length) (hw : w < athletes.length) (hne : v ≠ w) :
    (athletes.getD v dummyAthlete).id ≠ (athletes.getD w dummyAthlete).id := by
  intro heq
  rw [List.getD_eq_getElem?_getD, List.getElem?_eq_getElem hv] at heq
  rw [List.getD_eq_getElem?_getD, List.getElem?_eq_getElem hw] at heq
  have hv' : v < (athletes.map (fun a => a.id)).length := by simpa using hv
  have hw' : w < (athletes.map (fun a => a.id)).length := by simpa using hw
  have heq2 : (athletes.map (fun a => a.id))[v] = (athletes.map (fun a => a.id))[w] := by
    rw [List.getElem_map, List.getElem_map]
    simpa using heq
  exact hne (hnd.getElem_inj_iff.mp heq2)

lemma pid_inj {athletes : List Athlete} {gid : String}
    (hnd : (athletes.map (fun a => a.id)).Nodup) {v w : Nat}
    (hv : v < (participantsOf athletes gid).length)
    (hw : w < (participantsOf athletes gid).length) (hne : v ≠ w)
    (hbv : pid (participantsOf athletes gid) v ≠ byeId)
    (hbw : pid (participantsOf athletes gid) w ≠ byeId) :
    pid (participantsOf athletes gid) v ≠ pid (participantsOf athletes gid) w := by
  rcases participantsOf_pid hv hbv with ⟨hva, hvid⟩
  rcases participantsOf_pid hw hbw with ⟨hwa, hwid⟩
  rw [hvid, hwid]
  exact athletes_getD_id_inj hnd hva hwa hne

lemma flatMap_filterMap_eq {α β γ : Type _} (f : α → Option β) (g : β → List γ) :
    ∀ (l : List α),
      (l.filterMap f).flatMap g = l.flatMap (fun a => ((f a).map g).getD []) := by
  intro l
  induction l with
  | nil => rfl
  | cons a l ih =>
    cases hfa : f a with
    | none => simp [List.filterMap_cons, List.flatMap_cons, hfa, ih]
    | some b => simp [List.filterMap_cons, List.flatMap_cons, hfa, ih]

lemma flatMap_sublist {α β : Type _} (f g : α → List β) :
    ∀ (l : List α), (∀ a ∈ l, (f a).Sublist (g a)) →
      (l.flatMap f).Sublist (l.flatMap g) := by
  intro l
  induction l with
  | nil => intro _; exact List.Sublist.refl _
  | cons a l ih =>
    intro h
    rw [List.flatMap_cons, List.flatMap_cons]
    exact List.Sublist.append (h a (List.mem_cons_self a l))
      (ih (fun x hx => h x (List.mem_cons_of_mem a hx)))

lemma nodup_map_filter_ne_bye {vals : List Nat} (hnd : vals.Nodup) {f : Nat → String}
    (hinj : ∀ v ∈ vals, ∀ w ∈ vals, v ≠ w → f v ≠ byeId → f w ≠ byeId → f v ≠ f w) :
    ((vals.map f).filter (fun s => !(decide (s = byeId)))).Nodup := by
  have hpw : (vals.map f).Pairwise (fun a b => a ≠ byeId → b ≠ byeId → a ≠ b) := by
    rw [List.pairwise_map]
    exact List.Pairwise.imp_of_mem
      (fun {a b} ha hb hne => hinj a ha b hb hne) hnd
  have hpf := hpw.filter (fun s => !(decide (s = byeId)))
  refine List.Pairwise.imp_of_mem ?_ hpf
  intro a b ha hb hR
  have ha2 : a ≠ byeId := by
    have := (List.mem_filter.mp ha).2
    simpa using this
  have hb2 : b ≠ byeId := by
    have := (List.mem_filter.mp hb).2
    simpa using this
  exact hR ha2 hb2

lemma roundMatches_flat_ids_nodup {genId : String → String} {athletes : List Athlete}
    {gid : String} {c r : Nat} {idx : List Nat}
    (hnd : (athletes.map (fun a => a.id)).Nodup)
    (hperm : idx.Perm (List.range (participantsOf athletes gid).length)) :
    ((roundMatchesFromIdx genId (participantsOf athletes gid) idx gid c r
      ((participantsOf athletes gid).length / 2)).flatMap
        (fun m => [m.athlete1Id, m.athlete2Id])).Nodup := by
  have heven := participantsOf_even athletes gid
  set P := participantsOf athletes gid with hP
  set M := P.length with hM
  have hlen : idx.length = M := by rw [hperm.length_eq, List.length_range]
  have hflat := flatRoundPositions_spec M heven
  -- the value list read off by one round, in position order
  set vals := (flatRoundPositions M).map (fun p => idx.getD p 0) with hvals
  have hvnd : vals.Nodup := nodup_map_getD_of_perm_range hperm hflat.1 hflat.2
  have hvlt : ∀ v ∈ vals, v < M := by
    intro v hv
    rcases List.mem_map.mp hv with ⟨p, hp, rfl⟩
    exact getD_lt_of_perm_range hperm (hflat.2 p hp)
  -- the target superlist: ids at those values, BYE dropped
  have hLnd : ((vals.map (fun v => pid P v)).filter
      (fun s => !(decide (s = byeId)))).Nodup := by
    refine nodup_map_filter_ne_bye hvnd ?_
    intro v hv w hw hne hbv hbw
    exact pid_inj hnd (hvlt v hv) (hvlt w hw) hne hbv hbw
  refine List.Sublist.nodup ?_ hLnd
  -- rewrite the target as a flatMap over the round's position indices
  have hLeq : (vals.map (fun v => pid P v)).filter (fun s => !(decide (s = byeId)))
      = (List.range (M / 2)).flatMap (fun i =>
          ([pid P (idx.getD i 0), pid P (idx.getD (M - 1 - i) 0)]).filter
            (fun s => !(decide (s = byeId)))) := by
    rw [hvals]
    unfold flatRoundPositions
    rw [List.map_flatMap, List.map_flatMap, List.filter_flatMap]
    rfl
  rw [hLeq]
  unfold roundMatchesFromIdx
  rw [flatMap_filterMap_eq]
  refine flatMap_sublist _ _ _ ?_
  intro i hi
  have hiM : i < M / 2 := List.mem_range.mp hi
  have hi1 : i < idx.length := by omega
  have hi2 : M - 1 - i < idx.length := by omega
  have hv1 : idx.getD i 0 < M := getD_lt_of_perm_range hperm (by omega)
  have hv2 : idx.getD (M - 1 - i) 0 < M := getD_lt_of_perm_range hperm (by omega)
  rw [getElem?_eq_some_getD idx 0 hi1]
  rw [show P.length - 1 - i = M - 1 - i from rfl]
  rw [getElem?_eq_some_getD idx 0 hi2]
  dsimp only
  rw [getElem?_eq_some_getD P dummyAthlete (by omega : idx.getD i 0 < P.length)]
  rw [getElem?_eq_some_getD P dummyAthlete (by omega : idx.getD (M - 1 - i) 0 < P.length)]
  dsimp only
  split
  · next hbye => exact List.nil_sublist _
  · next hbye =>
    push_neg at hbye
    have hb1 : (decide ((P.getD (idx.getD i 0) dummyAthlete).id = byeId)) = false :=
      decide_eq_false hbye.1
    have hb2 : (decide ((P.getD (idx.getD (M - 1 - i) 0) dummyAthlete).id = byeId)) = false :=
      decide_eq_false hbye.2
    unfold pid
    rw [List.filter_cons, List.filter_cons, List.filter_nil]
    rw [hb1, hb2]
    exact List.Sublist.refl _

lemma range_map_eq_cons {k : Nat} (f : Nat → Nat) (hk : 1 ≤ k) :
    (List.range k).map f = f 0 :: (List.range (k - 1)).map (fun j => f (j + 1)) := by
  conv_lhs => rw [show k = (k - 1) + 1 from by omega]
  rw [List.range_succ_eq_map, List.map_cons, List.map_map]
  rfl

lemma range_map_eq_concat {k : Nat} (f : Nat → Nat) (hk : 1 ≤ k) :
    (List.range k).map f = (List.range (k - 1)).map f ++ [f (k - 1)] := by
  conv_lhs => rw [show k = (k - 1) + 1 from by omega]
  rw [List.range_succ, List.map_append]
  rfl

lemma closedIdx_zero (M : Nat) (hM : 1 ≤ M) : closedIdx M 0 = List.range M := by
  unfold closedIdx
  conv_rhs => rw [show M = (M - 1) + 1 from by omega, List.range_succ_eq_map]
  congr 1
  refine List.map_congr_left ?_
  intro j hj
  have hj2 : j < M - 1 := List.mem_range.mp hj
  rw [Nat.zero_mod, Nat.sub_zero, Nat.add_mod_right, Nat.mod_eq_of_lt hj2]

lemma mod_succ_eq (q r : Nat) (hq : 1 ≤ q) :
    (r + 1) % q = if r % q + 1 = q then 0 else r % q + 1 := by
  have hs : r % q < q := Nat.mod_lt r (by omega)
  rcases Nat.lt_or_ge q 2 with hq2 | hq2
  · have hq1 : q = 1 := by omega
    subst hq1
    simp [Nat.mod_one]
  · have h1q : 1 % q = 1 := Nat.mod_eq_of_lt (by omega)
    rw [Nat.add_mod, h1q]
    by_cases h : r % q + 1 = q
    · rw [if_pos h, h, Nat.mod_self]
    · rw [if_neg h, Nat.mod_eq_of_lt (by omega)]

lemma gval_e1 (q : Nat) (hq : 1 ≤ q) (r : Nat) :
    ((q - 1) + q - r % q) % q + 1 = (0 + q - (r + 1) % q) % q + 1 := by
  have hs : r % q < q := Nat.mod_lt r (by omega)
  rw [mod_succ_eq q r hq]
  by_cases h : r % q + 1 = q
  · rw [if_pos h]
    have hrq : r % q = q - 1 := by omega
    rw [hrq]
    rw [show (q - 1) + q - (q - 1) = q from by omega, Nat.mod_self]
    rw [show 0 + q - 0 = q from by omega, Nat.mod_self]
  · rw [if_neg h]
    rw [show (q - 1) + q - r % q = q + (q - 1 - r % q) from by omega]
    rw [Nat.add_mod_left]
    rw [Nat.mod_eq_of_lt (by omega : q - 1 - r % q < q)]
    rw [show 0 + q - (r % q + 1) = q - 1 - r % q from by omega]
    rw [Nat.mod_eq_of_lt (by omega : q - 1 - r % q < q)]

lemma gval_e2 (q : Nat) (hq : 1 ≤ q) (r j : Nat) (hj : j < q - 1) :
    (j + q - r % q) % q + 1 = ((j + 1) + q - (r + 1) % q) % q + 1 := by
  have hs : r % q < q := Nat.mod_lt r (by omega)
  rw [mod_succ_eq q r hq]
  by_cases h : r % q + 1 = q
  · rw [if_pos h]
    have hrq : r % q = q - 1 := by omega
    rw [hrq]
    rw [show j + q - (q - 1) = j + 1 from by omega]
    rw [show (j + 1) + q - 0 = (j + 1) + q from by omega]
    rw [Nat.add_mod_right]
  · rw [if_neg h]
    rw [show (j + 1) + q - (r % q + 1) = j + q - r % q from by omega]

lemma closedIdx_succ (M : Nat) (hM : 2 ≤ M) (r : Nat) :
    rotateIdx (closedIdx M r) = closedIdx M (r + 1) := by
  have hq1 : 1 ≤ M - 1 := by omega
  unfold closedIdx
  rw [range_map_eq_cons (fun j => (j + (M - 1) - (r + 1) % (M - 1)) % (M - 1) + 1) hq1]
  have hdef : rotateIdx (0 :: (List.range (M - 1)).map
      (fun j => (j + (M - 1) - r % (M - 1)) % (M - 1) + 1))
      = match ((List.range (M - 1)).map
          (fun j => (j + (M - 1) - r % (M - 1)) % (M - 1) + 1)).getLast? with
        | none => [0]
        | some y => 0 :: y :: ((List.range (M - 1)).map
            (fun j => (j + (M - 1) - r % (M - 1)) % (M - 1) + 1)).dropLast := rfl
  rw [hdef]
  rw [range_map_eq_concat (fun j => (j + (M - 1) - r % (M - 1)) % (M - 1) + 1) hq1]
  rw [List.getLast?_concat, List.dropLast_concat]
  have hE1 : ((M - 1 - 1) + (M - 1) - r % (M - 1)) % (M - 1) + 1
      = (0 + (M - 1) - (r + 1) % (M - 1)) % (M - 1) + 1 := gval_e1 (M - 1) hq1 r
  have hE2 : (List.range (M - 1 - 1)).map
        (fun j => (j + (M - 1) - r % (M - 1)) % (M - 1) + 1)
      = (List.range (M - 1 - 1)).map
        (fun j => ((j + 1) + (M - 1) - (r + 1) % (M - 1)) % (M - 1) + 1) :=
    List.map_congr_left (fun j hj => gval_e2 (M - 1) hq1 r j (List.mem_range.mp hj))
  rw [hE1, hE2]

lemma rotIterN_range (M : Nat) (hM : 2 ≤ M) :
    ∀ r, rotIterN r (List.range M) = closedIdx M r := by
  intro r
  induction r with
  | zero =>
    rw [show rotIterN 0 (List.range M) = List.range M from rfl]
    rw [closedIdx_zero M (by omega)]
  | succ n ih =>
    rw [show rotIterN (n + 1) (List.range M) = rotateIdx (rotIterN n (List.range M)) from rfl]
    rw [ih, closedIdx_succ M hM n]

lemma innerFold_map (genId : String → String) (P : List Athlete) (gid : String)
    (numRounds halfSize c : Nat) :
    ∀ (n : Nat) (rs : List Round) (idx : List Nat),
      (List.range n).foldl (fun acc2 r =>
        (acc2.1 ++ [{ roundNumber := (c - 1) * numRounds + r + 1
                      groupId := gid
                      «matches» := roundMatchesFromIdx genId P acc2.2 gid c r halfSize }],
         rotateIdx acc2.2)) (rs, idx)
      = (rs ++ (List.range n).map (fun r =>
          { roundNumber := (c - 1) * numRounds + r + 1
            groupId := gid
            «matches» := roundMatchesFromIdx genId P (rotIterN r idx) gid c r halfSize }),
         rotIterN n idx) := by
  intro n
  induction n with
  | zero => intro rs idx; simp [rotIterN]
  | succ n ih =>
    intro rs idx
    rw [List.range_succ, List.foldl_append, ih]
    dsimp only [List.foldl_cons, List.foldl_nil]
    rw [List.map_append]
    rw [List.append_assoc]
    rfl

lemma generateRoundsForGroup_one (genId : String → String) (athletes : List Athlete)
    (gid : String) (h2 : 2 ≤ athletes.length) :
    generateRoundsForGroup genId athletes gid 1
      = (List.range ((participantsOf athletes gid).length - 1)).map (fun r =>
          { roundNumber := r + 1
            groupId := gid
            «matches» := roundMatchesFromIdx genId (participantsOf athletes gid)
              (closedIdx (participantsOf athletes gid).length r) gid 1 r
              ((participantsOf athletes gid).length / 2) }) := by
  have hM : 2 ≤ (participantsOf athletes gid).length :=
    le_trans h2 (participantsOf_length_ge _ _)
  unfold generateRoundsForGroup
  rw [if_neg (by omega)]
  dsimp only
  rw [show List.range' 1 1 = [1] from rfl]
  rw [List.foldl_cons, List.foldl_nil]
  rw [innerFold_map]
  dsimp only
  rw [List.nil_append]
  refine List.map_congr_left ?_
  intro r hr
  have hnum : (1 - 1) * ((participantsOf athletes gid).length - 1) + r + 1 = r + 1 := by omega
  rw [hnum, rotIterN_range _ hM r]

/-- C8: in every round the Pairing Generator produces (any roster with
pairwise distinct athlete ids, any cycle count), no athlete id occurs in two
matches of the round: the flattened athlete-id list of the round is
duplicate-free. -/
theorem c8_no_athlete_twice_per_round (genId : String → String) (athletes : List Athlete)
    (groupId : String) (cycles : Nat)
    (hnd : (athletes.map (fun a => a.id)).Nodup) :
    ∀ round ∈ generateRoundsForGroup genId athletes groupId cycles,
      (round.«matches».flatMap (fun m => [m.athlete1Id, m.athlete2Id])).Nodup := by
  intro round hround
  by_cases h2 : 2 ≤ athletes.length
  · rcases generateRoundsForGroup_matches h2 round hround with ⟨idx, c, r, hperm, hmat⟩
    rw [hmat]
    exact roundMatches_flat_ids_nodup hnd hperm
  · unfold generateRoundsForGroup at hround
    rw [if_pos (by omega)] at hround
    simp at hround

/-- C8 witness: an odd roster of three athletes over two cycles. -/
theorem c8_witness :
    (([⟨"A", "Alice", "g"⟩, ⟨"B", "Bob", "g"⟩, ⟨"C", "Carol", "g"⟩] :
        List Athlete).map (fun a => a.id)).Nodup ∧
    (∀ round ∈ generateRoundsForGroup (fun s => s)
        [⟨"A", "Alice", "g"⟩, ⟨"B", "Bob", "g"⟩, ⟨"C", "Carol", "g"⟩] ("g") 2,
      (round.«matches».flatMap (fun m => [m.athlete1Id, m.athlete2Id])).Nodup) :=
  ⟨by decide, c8_no_athlete_twice_per_round (fun s => s)
    [⟨"A", "Alice", "g"⟩, ⟨"B", "Bob", "g"⟩, ⟨"C", "Carol", "g"⟩] ("g") 2 (by decide)⟩

/-- C6 witness (for the amended claim): the event whose single area has only
a one-athlete group. -/
theorem c6_witness :
    (generateTimeBoxedSchedule (fun s => s) evSmall = some evSmallResult ∧
      parseTime? evSmall.startTime = some 60 ∧ parseTime? evSmall.endTime = some 120 ∧
      ¬ (60 + evSmall.fightDuration > 120)) ∧
    ((∀ x ∈ evSmallResult.schedule.entries, ∃ a ∈ evSmall.areas, ∃ g ∈ a.groups,
        g.id = x.groupId ∧ 2 ≤ g.athletes.length) ∧
    (∀ a ∈ evSmall.areas, a.groups.length ≠ 0 →
      (∀ g ∈ a.groups, g.athletes.length < 2) →
      ∃ w ∈ evSmallResult.warnings, w.type = ("INFO") ∧ w.severity = ("warning") ∧
        w.affectedItems = [a.id])) :=
  ⟨⟨by decide, by decide, by decide, by decide⟩,
    c6_small_groups_excluded (fun s => s) evSmall evSmallResult 60 120 (by decide) (by decide)
      (by decide) (by decide)⟩

/-! ### C1: round-robin completeness of one cycle

The closed form `closedIdx`/`valAt` of the rotating index list lets every
round's position pairs be described arithmetically; the per-round pair lists
are shown pairwise disjoint and jointly a permutation of `allPairsBelow M`,
which settles both the total match count and the exactly-once property. -/

lemma closedIdx_length {M r : Nat} (hM : 1 ≤ M) : (closedIdx M r).length = M := by
  unfold closedIdx
  simp only [List.length_cons, List.length_map, List.length_range]
  omega

lemma closedIdx_getD {M r p : Nat} (hp : p < M) :
    (closedIdx M r).getD p 0 = valAt M r p := by
  unfold closedIdx valAt
  cases p with
  | zero => rfl
  | succ n =>
    rw [if_neg (Nat.succ_ne_zero n)]
    rw [List.getD_cons_succ]
    have hn : n < M - 1 := by omega
    rw [List.getD_eq_getElem?_getD, List.getElem?_map, List.getElem?_range hn]
    rfl

lemma valAt_lt {M : Nat} (hM : 2 ≤ M) (r p : Nat) : valAt M r p < M := by
  unfold valAt
  split
  · omega
  · have h := Nat.mod_lt ((p - 1) + (M - 1) - r % (M - 1)) (show 0 < M - 1 by omega)
    omega

lemma valAt_pos {M : Nat} (r : Nat) {p : Nat} (hp : p ≠ 0) : 1 ≤ valAt M r p := by
  unfold valAt
  rw [if_neg hp]
  omega

lemma valAt_zero (M r : Nat) : valAt M r 0 = 0 := rfl

lemma valAt_inj {M : Nat} (hM : 2 ≤ M) {r p p' : Nat} (hp : p < M) (hp' : p' < M)
    (h : valAt M r p = valAt M r p') : p = p' := by
  unfold valAt at h
  by_cases h0 : p = 0
  · by_cases h0' : p' = 0
    · omega
    · rw [if_pos h0, if_neg h0'] at h
      omega
  · by_cases h0' : p' = 0
    · rw [if_neg h0, if_pos h0'] at h
      omega
    · rw [if_neg h0, if_neg h0'] at h
      have hs : r % (M - 1) < M - 1 := Nat.mod_lt r (by omega)
      rw [show (p - 1) + (M - 1) - r % (M - 1)
          = (p - 1) + ((M - 1) - r % (M - 1)) from by omega] at h
      rw [show (p' - 1) + (M - 1) - r % (M - 1)
          = (p' - 1) + ((M - 1) - r % (M - 1)) from by omega] at h
      have h1 : ((p - 1) + ((M - 1) - r % (M - 1))) % (M - 1)
          = ((p' - 1) + ((M - 1) - r % (M - 1))) % (M - 1) := by omega
      have h2 : (p - 1) + ((M - 1) - r % (M - 1))
          ≡ (p' - 1) + ((M - 1) - r % (M - 1)) [MOD (M - 1)] := h1
      have h3 : (p - 1) ≡ (p' - 1) [MOD (M - 1)] :=
        Nat.ModEq.add_right_cancel' _ h2
      have h4 : (p - 1) % (M - 1) = (p' - 1) % (M - 1) := h3
      rw [Nat.mod_eq_of_lt (by omega), Nat.mod_eq_of_lt (by omega)] at h4
      omega

lemma valAt_last {M : Nat} (hM : 2 ≤ M) {r : Nat} (hr : r < M - 1) :
    valAt M r (M - 1) = (M - 1) - r := by
  unfold valAt
  rw [if_neg (by omega : ¬(M - 1 = 0))]
  rw [Nat.mod_eq_of_lt hr]
  rw [show (M - 1 - 1) + (M - 1) - r = (M - 1) + ((M - 1) - 1 - r) from by omega]
  rw [Nat.add_mod_left]
  rw [Nat.mod_eq_of_lt (by omega)]
  omega

lemma valAt_sum_key {M : Nat} (hM : 2 ≤ M) {r i : Nat} (hr : r < M - 1) (hi1 : 1 ≤ i)
    (hi2 : i < M / 2) :
    ((valAt M r i - 1) + (valAt M r (M - 1 - i) - 1)) % (M - 1)
      = (3 * (M - 1) - 2 - 2 * r) % (M - 1) := by
  have hx : valAt M r i = ((i - 1) + ((M - 1) - r)) % (M - 1) + 1 := by
    unfold valAt
    rw [if_neg (by omega), Nat.mod_eq_of_lt hr]
    rw [show (i - 1) + (M - 1) - r = (i - 1) + ((M - 1) - r) from by omega]
  have hy : valAt M r (M - 1 - i) = ((M - 2 - i) + ((M - 1) - r)) % (M - 1) + 1 := by
    unfold valAt
    rw [if_neg (by omega : ¬(M - 1 - i = 0)), Nat.mod_eq_of_lt hr]
    rw [show (M - 1 - i - 1) + (M - 1) - r = (M - 2 - i) + ((M - 1) - r) from by omega]
  rw [hx, hy, Nat.add_sub_cancel, Nat.add_sub_cancel, ← Nat.add_mod]
  rw [show ((i - 1) + ((M - 1) - r)) + ((M - 2 - i) + ((M - 1) - r))
      = 3 * (M - 1) - 2 - 2 * r from by omega]

lemma sum_key_inj {q r r' : Nat} (hq : 1 ≤ q) (hodd : q % 2 = 1) (hr : r < q)
    (hr' : r' < q)
    (h : (3 * q - 2 - 2 * r) % q = (3 * q - 2 - 2 * r') % q) : r = r' := by
  have hm : 3 * q - 2 - 2 * r ≡ 3 * q - 2 - 2 * r' [MOD q] := h
  have hm2 := hm.add_right (2 * r + 2 * r')
  rw [show (3 * q - 2 - 2 * r) + (2 * r + 2 * r')
      = (3 * q - 2) + 2 * r' from by omega] at hm2
  rw [show (3 * q - 2 - 2 * r') + (2 * r + 2 * r')
      = (3 * q - 2) + 2 * r from by omega] at hm2
  have hm3 : 2 * r' ≡ 2 * r [MOD q] := Nat.ModEq.add_left_cancel' _ hm2
  have hco : Nat.gcd q 2 = 1 := (Nat.coprime_two_left.mpr (Nat.odd_iff.mpr hodd)).symm
  have hm4 : r' ≡ r [MOD q] := Nat.ModEq.cancel_left_of_coprime hco hm3
  have hm5 : r' % q = r % q := hm4
  rw [Nat.mod_eq_of_lt hr', Nat.mod_eq_of_lt hr] at hm5
  omega

lemma normPair_eq {p p' : Nat × Nat} (h : normPair p = normPair p') :
    p = p' ∨ (p.1 = p'.2 ∧ p.2 = p'.1) := by
  rcases p with ⟨a, b⟩
  rcases p' with ⟨c, d⟩
  dsimp only [normPair] at h
  split_ifs at h with h1 h2 h3
  · exact Or.inl h
  · rw [Prod.mk.injEq] at h
    exact Or.inr ⟨h.1, h.2⟩
  · rw [Prod.mk.injEq] at h
    exact Or.inr ⟨h.2, h.1⟩
  · rw [Prod.mk.injEq] at h
    exact Or.inl (by rw [Prod.mk.injEq]; exact ⟨h.2, h.1⟩)

lemma mem_allPairsBelow {M x y : Nat} :
    (x, y) ∈ allPairsBelow M ↔ x < y ∧ y < M := by
  unfold allPairsBelow
  simp only [List.mem_flatMap, List.mem_map, List.mem_range, Prod.mk.injEq]
  constructor
  · rintro ⟨b, hb, a, ha, rfl, rfl⟩
    exact ⟨ha, hb⟩
  · rintro ⟨hxy, hyM⟩
    exact ⟨y, hyM, x, hxy, rfl, rfl⟩

lemma nodup_flatMap_of {α β : Type _} (f : α → List β) :
    ∀ l : List α, l.Nodup → (∀ a ∈ l, (f a).Nodup) →
      (∀ a ∈ l, ∀ b ∈ l, a ≠ b → ∀ x ∈ f a, x ∉ f b) →
      (l.flatMap f).Nodup := by
  intro l
  induction l with
  | nil => intro _ _ _; simp
  | cons a l ih =>
    intro hnd hf hdisj
    rw [List.flatMap_cons, List.nodup_append]
    rcases List.nodup_cons.mp hnd with ⟨hal, hl⟩
    refine ⟨hf a (List.mem_cons_self a l), ?_, ?_⟩
    · exact ih hl (fun b hb => hf b (List.mem_cons_of_mem a hb))
        (fun b hb c hc hbc =>
          hdisj b (List.mem_cons_of_mem a hb) c (List.mem_cons_of_mem a hc) hbc)
    · intro x hx hx2
      rcases List.mem_flatMap.mp hx2 with ⟨b, hb, hxb⟩
      have hab : a ≠ b := fun he => hal (he ▸ hb)
      exact hdisj a (List.mem_cons_self a l) b (List.mem_cons_of_mem a hb) hab x hx hxb

lemma mem_normRoundPairs {M r : Nat} {p : Nat × Nat} :
    p ∈ normRoundPairs M r
      ↔ ∃ i < M / 2, normPair (valAt M r i, valAt M r (M - 1 - i)) = p := by
  unfold normRoundPairs roundIdxPairs
  rw [List.map_map]
  simp only [List.mem_map, List.mem_range, Function.comp]

lemma normRoundPairs_nodup {M : Nat} (hM : 2 ≤ M) (heven : M % 2 = 0) (r : Nat) :
    (normRoundPairs M r).Nodup := by
  unfold normRoundPairs roundIdxPairs
  rw [List.map_map]
  refine List.Nodup.map_on ?_ (List.nodup_range _)
  intro i hi i' hi' heq
  have hi2 : i < M / 2 := List.mem_range.mp hi
  have hi2' : i' < M / 2 := List.mem_range.mp hi'
  dsimp only [Function.comp] at heq
  rcases normPair_eq heq with h | h
  · rw [Prod.mk.injEq] at h
    exact valAt_inj hM (by omega) (by omega) h.1
  · dsimp only at h
    have := valAt_inj hM (by omega : i < M) (by omega : M - 1 - i' < M) h.1
    omega

lemma normRoundPairs_disjoint {M : Nat} (hM : 2 ≤ M) (heven : M % 2 = 0) {r r' : Nat}
    (hr : r < M - 1) (hr' : r' < M - 1) (hne : r ≠ r') :
    ∀ x ∈ normRoundPairs M r, x ∉ normRoundPairs M r' := by
  intro x hx hx'
  rcases mem_normRoundPairs.mp hx with ⟨i, hi, hxe⟩
  rcases mem_normRoundPairs.mp hx' with ⟨i', hi', hxe'⟩
  have heq : normPair (valAt M r i, valAt M r (M - 1 - i))
      = normPair (valAt M r' i', valAt M r' (M - 1 - i')) := hxe.trans hxe'.symm
  by_cases hi0 : i = 0
  · by_cases hi0' : i' = 0
    · subst hi0
      subst hi0'
      rw [valAt_zero, valAt_zero, Nat.sub_zero, valAt_last hM hr, valAt_last hM hr'] at heq
      rw [show normPair (0, M - 1 - r) = (0, M - 1 - r) from
          by unfold normPair; rw [if_pos (Nat.zero_le _)]] at heq
      rw [show normPair (0, M - 1 - r') = (0, M - 1 - r') from
          by unfold normPair; rw [if_pos (Nat.zero_le _)]] at heq
      rw [Prod.mk.injEq] at heq
      omega
    · subst hi0
      rcases normPair_eq heq with h | h
      · rw [Prod.mk.injEq] at h
        have h1 := h.1
        rw [valAt_zero] at h1
        have hpos := valAt_pos (M := M) r' hi0'
        omega
      · dsimp only at h
        have h1 := h.1
        rw [valAt_zero] at h1
        have hpos := valAt_pos (M := M) r' (show M - 1 - i' ≠ 0 by omega)
        omega
  · by_cases hi0' : i' = 0
    · subst hi0'
      rcases normPair_eq heq with h | h
      · rw [Prod.mk.injEq] at h
        have h1 := h.1
        rw [valAt_zero] at h1
        have hpos := valAt_pos (M := M) r hi0
        omega
      · dsimp only at h
        have h2 := h.2
        rw [valAt_zero] at h2
        have hpos := valAt_pos (M := M) r (show M - 1 - i ≠ 0 by omega)
        omega
    · have hsum : (valAt M r i - 1) + (valAt M r (M - 1 - i) - 1)
          = (valAt M r' i' - 1) + (valAt M r' (M - 1 - i') - 1) := by
        rcases normPair_eq heq with h | h
        · rw [Prod.mk.injEq] at h
          omega
        · dsimp only at h
          omega
      have hk := valAt_sum_key hM hr (by omega : 1 ≤ i) hi
      have hk' := valAt_sum_key hM hr' (by omega : 1 ≤ i') hi'
      rw [hsum] at hk
      exact hne (sum_key_inj (by omega : 1 ≤ M - 1) (by omega : (M - 1) % 2 = 1)
        hr hr' (hk.symm.trans hk'))

lemma allRoundPairs_nodup {M : Nat} (hM : 2 ≤ M) (heven : M % 2 = 0) :
    (allRoundPairs M).Nodup := by
  unfold allRoundPairs
  refine nodup_flatMap_of _ _ (List.nodup_range _)
    (fun r _ => normRoundPairs_nodup hM heven r) ?_
  intro r hr r' hr' hne x hx
  exact normRoundPairs_disjoint hM heven (List.mem_range.mp hr)
    (List.mem_range.mp hr') hne x hx

lemma allRoundPairs_subset {M : Nat} (hM : 2 ≤ M) (heven : M % 2 = 0) :
    ∀ p ∈ allRoundPairs M, p ∈ allPairsBelow M := by
  intro p hp
  unfold allRoundPairs at hp
  rcases List.mem_flatMap.mp hp with ⟨r, _, hpr⟩
  rcases mem_normRoundPairs.mp hpr with ⟨i, hi, hpe⟩
  have hiM : i < M := by omega
  have hjM : M - 1 - i < M := by omega
  have hne : valAt M r i ≠ valAt M r (M - 1 - i) := by
    intro he
    have := valAt_inj hM hiM hjM he
    omega
  have h1 := valAt_lt hM r i
  have h2 := valAt_lt hM r (M - 1 - i)
  rw [← hpe]
  unfold normPair
  dsimp only
  split_ifs with hle
  · exact mem_allPairsBelow.mpr ⟨by omega, h2⟩
  · exact mem_allPairsBelow.mpr ⟨by omega, h1⟩

lemma normRoundPairs_length (M r : Nat) : (normRoundPairs M r).length = M / 2 := by
  unfold normRoundPairs roundIdxPairs
  rw [List.length_map, List.length_map, List.length_range]

lemma allRoundPairs_length (M : Nat) :
    (allRoundPairs M).length = (M - 1) * (M / 2) := by
  unfold allRoundPairs
  rw [List.length_flatMap]
  rw [show List.map (List.length ∘ fun r => normRoundPairs M r) (List.range (M - 1))
      = List.map (fun _ => M / 2) (List.range (M - 1)) from
    List.map_congr_left (fun r _ => normRoundPairs_length M r)]
  rw [List.map_const', List.sum_replicate, List.length_range, smul_eq_mul]

lemma allPairsBelow_nodup (M : Nat) : (allPairsBelow M).Nodup := by
  unfold allPairsBelow
  refine nodup_flatMap_of _ _ (List.nodup_range _) ?_ ?_
  · intro y _
    refine List.Nodup.map_on ?_ (List.nodup_range _)
    intro x _ x' _ he
    rw [Prod.mk.injEq] at he
    exact he.1
  · intro y _ y' _ hne p hp hp'
    rcases List.mem_map.mp hp with ⟨x, _, rfl⟩
    rcases List.mem_map.mp hp' with ⟨x', _, he⟩
    rw [Prod.mk.injEq] at he
    exact hne he.2.symm

lemma sum_range_id_two : ∀ n : Nat, ((List.range n).map (fun y => y)).sum * 2 = n * (n - 1) := by
  intro n
  induction n with
  | zero => rfl
  | succ m ih =>
    rw [List.range_succ, List.map_append, List.sum_append]
    simp only [List.map_cons, List.map_nil, List.sum_cons, List.sum_nil]
    cases m with
    | zero => rfl
    | succ k =>
      rw [Nat.succ_sub_one] at ih ⊢
      rw [Nat.add_mul, ih]
      ring

lemma allPairsBelow_length (M : Nat) : (allPairsBelow M).length * 2 = M * (M - 1) := by
  unfold allPairsBelow
  rw [List.length_flatMap]
  rw [show List.map (List.length ∘ fun y => List.map (fun x => (x, y)) (List.range y))
        (List.range M)
      = List.map (fun y => y) (List.range M) from
    List.map_congr_left (fun y _ => by
      simp only [Function.comp_apply, List.length_map, List.length_range])]
  exact sum_range_id_two M

lemma allPairsBelow_succ (N : Nat) :
    allPairsBelow (N + 1) = allPairsBelow N ++ (List.range N).map (fun x => (x, N)) := by
  unfold allPairsBelow
  rw [List.range_succ, List.flatMap_append]
  congr 1
  rw [List.flatMap_cons, List.flatMap_nil, List.append_nil]

lemma allRoundPairs_perm {M : Nat} (hM : 2 ≤ M) (heven : M % 2 = 0) :
    (allRoundPairs M).Perm (allPairsBelow M) := by
  have hnd1 := allRoundPairs_nodup hM heven
  have hnd2 := allPairsBelow_nodup M
  have hlen1 := allRoundPairs_length M
  have hlen2 := allPairsBelow_length M
  have hlen : (allPairsBelow M).length ≤ (allRoundPairs M).length := by
    have h1 : (allRoundPairs M).length * 2 = M * (M - 1) := by
      rw [hlen1, Nat.mul_assoc, show M / 2 * 2 = M from by omega, Nat.mul_comm]
    omega
  have hfin : (allRoundPairs M).toFinset = (allPairsBelow M).toFinset := by
    apply Finset.eq_of_subset_of_card_le
    · intro x hx
      rw [List.mem_toFinset] at hx ⊢
      exact allRoundPairs_subset hM heven x hx
    · rw [List.toFinset_card_of_nodup hnd1, List.toFinset_card_of_nodup hnd2]
      exact hlen
  exact List.perm_of_nodup_nodup_toFinset_eq hnd1 hnd2 hfin

lemma roundMatches_closed {genId : String → String} {P : List Athlete} {gid : String}
    {c r : Nat} (hM : 2 ≤ P.length) :
    roundMatchesFromIdx genId P (closedIdx P.length r) gid c r (P.length / 2)
      = (roundIdxPairs P.length r).filterMap
          (fun p => mkMatchAt genId P gid c r p.1 p.2) := by
  unfold roundIdxPairs
  rw [List.filterMap_map]
  unfold roundMatchesFromIdx
  refine List.filterMap_congr ?_
  intro i hi
  have hi2 : i < P.length / 2 := List.mem_range.mp hi
  have hiM : i < P.length := by omega
  have hjM : P.length - 1 - i < P.length := by omega
  have hleni : i < (closedIdx P.length r).length := by
    rw [closedIdx_length (by omega : 1 ≤ P.length)]
    omega
  have hlenj : P.length - 1 - i < (closedIdx P.length r).length := by
    rw [closedIdx_length (by omega : 1 ≤ P.length)]
    omega
  rw [getElem?_eq_some_getD _ 0 hleni, getElem?_eq_some_getD _ 0 hlenj]
  rw [closedIdx_getD hiM, closedIdx_getD hjM]
  dsimp only
  have hv1 : valAt P.length r i < P.length := valAt_lt hM r i
  have hv2 : valAt P.length r (P.length - 1 - i) < P.length := valAt_lt hM r _
  rw [getElem?_eq_some_getD P dummyAthlete hv1, getElem?_eq_some_getD P dummyAthlete hv2]
  dsimp only
  unfold mkMatchAt pid
  rfl

lemma roundsFlat_eq (genId : String → String) (athletes : List Athlete) (gid : String)
    (h2 : 2 ≤ athletes.length) :
    (generateRoundsForGroup genId athletes gid 1).flatMap (fun rd => rd.«matches»)
      = (List.range ((participantsOf athletes gid).length - 1)).flatMap (fun r =>
          (roundIdxPairs (participantsOf athletes gid).length r).filterMap
            (fun p => mkMatchAt genId (participantsOf athletes gid) gid 1 r p.1 p.2)) := by
  have hM : 2 ≤ (participantsOf athletes gid).length :=
    le_trans h2 (participantsOf_length_ge athletes gid)
  rw [generateRoundsForGroup_one genId athletes gid h2]
  rw [List.flatMap_map]
  congr 1
  funext r
  exact roundMatches_closed hM

lemma pid_append_left {l l' : List Athlete} {v : Nat} (hv : v < l.length) :
    pid (l ++ l') v = pid l v := by
  unfold pid
  rw [List.getD_eq_getElem?_getD, List.getElem?_append_left hv, ← List.getD_eq_getElem?_getD]

lemma pid_eq_getElem {athletes : List Athlete} {v : Nat} (hv : v < athletes.length) :
    pid athletes v = athletes[v].id := by
  unfold pid
  rw [List.getD_eq_getElem?_getD, List.getElem?_eq_getElem hv]
  rfl

lemma pid_ne_bye_of_roster {athletes : List Athlete}
    (hbye : byeId ∉ athletes.map (fun a => a.id)) {v : Nat} (hv : v < athletes.length) :
    pid athletes v ≠ byeId := by
  rw [pid_eq_getElem hv]
  intro he
  exact hbye (he ▸ List.mem_map.mpr ⟨athletes[v], List.getElem_mem hv, rfl⟩)

lemma pid_participants {athletes : List Athlete} {gid : String} {v : Nat}
    (hv : v < athletes.length) :
    pid (participantsOf athletes gid) v = pid athletes v := by
  unfold participantsOf
  exact pid_append_left hv

lemma pid_bye_pos {athletes : List Athlete} {gid : String}
    (hodd : athletes.length % 2 = 1) :
    pid (participantsOf athletes gid) athletes.length = byeId := by
  unfold participantsOf pid
  rw [if_pos hodd]
  rw [List.getD_eq_getElem?_getD, List.getElem?_append_right (le_refl _)]
  simp [byeAthlete, Nat.sub_self]

lemma countP_filterMap_cust {α β : Type _} (f : α → Option β) (p : β → Bool) :
    ∀ l : List α, (l.filterMap f).countP p
      = l.countP (fun a => ((f a).map p).getD false) := by
  intro l
  induction l with
  | nil => rfl
  | cons a l ih =>
    cases hfa : f a with
    | none => simp [List.filterMap_cons, List.countP_cons, hfa, ih]
    | some b => simp [List.filterMap_cons, List.countP_cons, hfa, ih]

lemma length_filterMap_cust {α β : Type _} (f : α → Option β) :
    ∀ l : List α, (l.filterMap f).length = l.countP (fun a => (f a).isSome) := by
  intro l
  induction l with
  | nil => rfl
  | cons a l ih =>
    cases hfa : f a with
    | none => simp [List.filterMap_cons, List.countP_cons, hfa, ih]
    | some b => simp [List.filterMap_cons, List.countP_cons, hfa, ih]

lemma mkMatchAt_isSome {genId : String → String} {P : List Athlete} {gid : String}
    {c r v w : Nat} :
    (mkMatchAt genId P gid c r v w).isSome = keepPair P (v, w) := by
  unfold mkMatchAt keepPair
  dsimp only
  split_ifs with h
  · rcases h with h | h <;> simp [h]
  · push_neg at h
    simp [h.1, h.2]

lemma keepPair_normPair (P : List Athlete) (p : Nat × Nat) :
    keepPair P (normPair p) = keepPair P p := by
  unfold normPair keepPair
  split_ifs with h
  · rfl
  · dsimp only
    rw [Bool.or_comm]

lemma pairHits_normPair (P : List Athlete) (aId bId : String) (p : Nat × Nat) :
    pairHits P aId bId (normPair p) = pairHits P aId bId p := by
  unfold normPair pairHits
  split_ifs with h
  · rfl
  · dsimp only
    rw [Bool.and_comm, Bool.or_comm, Bool.and_comm]

lemma countP_filterMap_keep {genId : String → String} {P : List Athlete} {gid : String}
    {c M r : Nat} :
    ((roundIdxPairs M r).filterMap (fun p => mkMatchAt genId P gid c r p.1 p.2)).length
      = (normRoundPairs M r).countP (keepPair P) := by
  rw [length_filterMap_cust]
  unfold normRoundPairs
  rw [List.countP_map]
  refine List.countP_congr fun x _ => ?_
  rcases x with ⟨v, w⟩
  show (mkMatchAt genId P gid c r v w).isSome = true
    ↔ keepPair P (normPair (v, w)) = true
  rw [mkMatchAt_isSome, keepPair_normPair]

lemma match_hit_eq {genId : String → String} {P : List Athlete} {gid aId bId : String}
    {c r v w : Nat} (ha : aId ≠ byeId) (hb : bId ≠ byeId) :
    ((mkMatchAt genId P gid c r v w).map
        (fun m => decide (matchBetween aId bId m))).getD false
      = pairHits P aId bId (v, w) := by
  unfold mkMatchAt
  split_ifs with h
  · unfold pairHits
    dsimp only
    rcases h with h | h
    · simp [h, Ne.symm ha, Ne.symm hb]
    · simp [h, Ne.symm ha, Ne.symm hb]
  · unfold matchBetween pairHits
    dsimp only
    simp only [Bool.decide_or, Bool.decide_and]
    rfl

lemma countP_filterMap_hits {genId : String → String} {P : List Athlete}
    {gid aId bId : String} {c M r : Nat} (ha : aId ≠ byeId) (hb : bId ≠ byeId) :
    ((roundIdxPairs M r).filterMap (fun p => mkMatchAt genId P gid c r p.1 p.2)).countP
        (fun m => decide (matchBetween aId bId m))
      = (normRoundPairs M r).countP (pairHits P aId bId) := by
  rw [countP_filterMap_cust]
  unfold normRoundPairs
  rw [List.countP_map]
  refine List.countP_congr fun x _ => ?_
  rcases x with ⟨v, w⟩
  show ((mkMatchAt genId P gid c r v w).map
        (fun m => decide (matchBetween aId bId m))).getD false = true
    ↔ pairHits P aId bId (normPair (v, w)) = true
  rw [match_hit_eq ha hb, pairHits_normPair]

lemma flat_length_eq (genId : String → String) (athletes : List Athlete) (gid : String)
    (h2 : 2 ≤ athletes.length) :
    ((generateRoundsForGroup genId athletes gid 1).flatMap (fun rd => rd.«matches»)).length
      = (allPairsBelow (participantsOf athletes gid).length).countP
          (keepPair (participantsOf athletes gid)) := by
  have hM : 2 ≤ (participantsOf athletes gid).length :=
    le_trans h2 (participantsOf_length_ge athletes gid)
  have heven := participantsOf_even athletes gid
  rw [roundsFlat_eq genId athletes gid h2, List.length_flatMap]
  rw [← (allRoundPairs_perm hM heven).countP_eq (keepPair (participantsOf athletes gid))]
  unfold allRoundPairs
  rw [List.countP_flatMap]
  refine congrArg List.sum (List.map_congr_left fun r _ => ?_)
  exact countP_filterMap_keep

lemma flat_countP_eq (genId : String → String) (athletes : List Athlete)
    (gid aId bId : String) (h2 : 2 ≤ athletes.length)
    (ha : aId ≠ byeId) (hb : bId ≠ byeId) :
    ((generateRoundsForGroup genId athletes gid 1).flatMap (fun rd => rd.«matches»)).countP
        (fun m => decide (matchBetween aId bId m))
      = (allPairsBelow (participantsOf athletes gid).length).countP
          (pairHits (participantsOf athletes gid) aId bId) := by
  have hM : 2 ≤ (participantsOf athletes gid).length :=
    le_trans h2 (participantsOf_length_ge athletes gid)
  have heven := participantsOf_even athletes gid
  rw [roundsFlat_eq genId athletes gid h2]
  rw [← (allRoundPairs_perm hM heven).countP_eq
    (pairHits (participantsOf athletes gid) aId bId)]
  unfold allRoundPairs
  rw [List.countP_flatMap, List.countP_flatMap]
  refine congrArg List.sum (List.map_congr_left fun r _ => ?_)
  exact countP_filterMap_hits ha hb

lemma countP_keep_allPairs (athletes : List Athlete) (gid : String)
    (hbye : byeId ∉ athletes.map (fun a => a.id)) :
    (allPairsBelow (participantsOf athletes gid).length).countP
        (keepPair (participantsOf athletes gid))
      = athletes.length * (athletes.length - 1) / 2 := by
  by_cases hodd : athletes.length % 2 = 1
  · have hMlen : (participantsOf athletes gid).length = athletes.length + 1 := by
      unfold participantsOf
      rw [if_pos hodd]
      simp
    rw [hMlen, allPairsBelow_succ, List.countP_append]
    have hA : (allPairsBelow athletes.length).countP
        (keepPair (participantsOf athletes gid)) = (allPairsBelow athletes.length).length := by
      rw [List.countP_eq_length]
      rintro ⟨x, y⟩ hp
      have hm := mem_allPairsBelow.mp hp
      unfold keepPair
      dsimp only
      rw [pid_participants (show x < athletes.length by omega)]
      rw [pid_participants (show y < athletes.length by omega)]
      simp [pid_ne_bye_of_roster hbye (show x < athletes.length by omega),
        pid_ne_bye_of_roster hbye (show y < athletes.length by omega)]
    have hB : ((List.range athletes.length).map (fun x => (x, athletes.length))).countP
        (keepPair (participantsOf athletes gid)) = 0 := by
      rw [List.countP_eq_zero]
      intro p hp
      rcases List.mem_map.mp hp with ⟨x, _, rfl⟩
      unfold keepPair
      dsimp only
      rw [pid_bye_pos hodd]
      simp
    rw [hA, hB, Nat.add_zero]
    rw [show athletes.length * (athletes.length - 1)
        = (allPairsBelow athletes.length).length * 2 from (allPairsBelow_length _).symm]
    omega
  · have hP : participantsOf athletes gid = athletes := by
      unfold participantsOf
      rw [if_neg hodd, List.append_nil]
    rw [hP]
    have hAll : (allPairsBelow athletes.length).countP (keepPair athletes)
        = (allPairsBelow athletes.length).length := by
      rw [List.countP_eq_length]
      rintro ⟨x, y⟩ hp
      have hm := mem_allPairsBelow.mp hp
      unfold keepPair
      dsimp only
      simp [pid_ne_bye_of_roster hbye (show x < athletes.length by omega),
        pid_ne_bye_of_roster hbye (show y < athletes.length by omega)]
    rw [hAll]
    rw [show athletes.length * (athletes.length - 1)
        = (allPairsBelow athletes.length).length * 2 from (allPairsBelow_length _).symm]
    omega

lemma countP_eq_one_of_nodup_mem {α : Type _} {p : α → Bool} {x : α} (hpx : p x = true) :
    ∀ l : List α, l.Nodup → x ∈ l → (∀ y ∈ l, p y = true → y = x) →
      l.countP p = 1 := by
  intro l
  induction l with
  | nil => intro _ hx _; cases hx
  | cons a l ih =>
    intro hnd hx huniq
    rcases List.nodup_cons.mp hnd with ⟨hal, hl⟩
    rw [List.countP_cons]
    rcases List.mem_cons.mp hx with rfl | hx2
    · have h0 : l.countP p = 0 := by
        rw [List.countP_eq_zero]
        intro y hy hpy
        exact hal ((huniq y (List.mem_cons_of_mem _ hy) hpy) ▸ hy)
      rw [h0, if_pos hpx]
    · have hpa : p a = false := by
        cases hpaB : p a with
        | false => rfl
        | true =>
          have hax : a = x := huniq a (List.mem_cons_self a l) hpaB
          exact absurd (hax.symm ▸ hx2) hal
      rw [hpa]
      rw [if_neg (by simp : ¬(false = true))]
      rw [Nat.add_zero]
      exact ih hl hx2 (fun y hy hpy => huniq y (List.mem_cons_of_mem _ hy) hpy)

lemma countP_hits_allPairs {athletes : List Athlete} {gid : String}
    (hnd : (athletes.map (fun a => a.id)).Nodup)
    (hbye : byeId ∉ athletes.map (fun a => a.id)) {a b : Athlete}
    (ha : a ∈ athletes) (hb : b ∈ athletes) (hab : a.id ≠ b.id) :
    (allPairsBelow (participantsOf athletes gid).length).countP
        (pairHits (participantsOf athletes gid) a.id b.id) = 1 := by
  rcases List.mem_iff_getElem.mp ha with ⟨xa, hxa, hxae⟩
  rcases List.mem_iff_getElem.mp hb with ⟨xb, hxb, hxbe⟩
  have hNM : athletes.length ≤ (participantsOf athletes gid).length :=
    participantsOf_length_ge athletes gid
  have hpa : pid (participantsOf athletes gid) xa = a.id := by
    rw [pid_participants hxa, pid_eq_getElem hxa, hxae]
  have hpb : pid (participantsOf athletes gid) xb = b.id := by
    rw [pid_participants hxb, pid_eq_getElem hxb, hxbe]
  have hane : a.id ≠ byeId := fun he => hbye (he ▸ List.mem_map.mpr ⟨a, ha, rfl⟩)
  have hbne : b.id ≠ byeId := fun he => hbye (he ▸ List.mem_map.mpr ⟨b, hb, rfl⟩)
  have hxab : xa ≠ xb := by
    intro he
    exact hab (by rw [← hpa, ← hpb, he])
  have huniq_a : ∀ v, v < (participantsOf athletes gid).length →
      pid (participantsOf athletes gid) v = a.id → v = xa := by
    intro v hv hveq
    by_contra hne
    exact pid_inj hnd hv (show xa < (participantsOf athletes gid).length by omega) hne
      (by rw [hveq]; exact hane) (by rw [hpa]; exact hane) (by rw [hveq, hpa])
  have huniq_b : ∀ v, v < (participantsOf athletes gid).length →
      pid (participantsOf athletes gid) v = b.id → v = xb := by
    intro v hv hveq
    by_contra hne
    exact pid_inj hnd hv (show xb < (participantsOf athletes gid).length by omega) hne
      (by rw [hveq]; exact hbne) (by rw [hpb]; exact hbne) (by rw [hveq, hpb])
  have hpx : pairHits (participantsOf athletes gid) a.id b.id (normPair (xa, xb)) = true := by
    rw [pairHits_normPair]
    unfold pairHits
    dsimp only
    simp [hpa, hpb]
  refine countP_eq_one_of_nodup_mem hpx _ (allPairsBelow_nodup _) ?_ ?_
  · unfold normPair
    dsimp only
    split_ifs with h
    · exact mem_allPairsBelow.mpr ⟨by omega, by omega⟩
    · exact mem_allPairsBelow.mpr ⟨by omega, by omega⟩
  · rintro ⟨u, v⟩ hy hpy
    have hm := mem_allPairsBelow.mp hy
    unfold pairHits at hpy
    dsimp only at hpy
    rw [Bool.or_eq_true, Bool.and_eq_true, Bool.and_eq_true] at hpy
    simp only [decide_eq_true_eq] at hpy
    rcases hpy with ⟨h1, h2⟩ | ⟨h1, h2⟩
    · have hu := huniq_a u (by omega) h1
      have hv := huniq_b v (by omega) h2
      rw [hu, hv] at hm ⊢
      unfold normPair
      dsimp only
      rw [if_pos (by omega : xa ≤ xb)]
    · have hu := huniq_b u (by omega) h1
      have hv := huniq_a v (by omega) h2
      rw [hu, hv] at hm ⊢
      unfold normPair
      dsimp only
      rw [if_neg (by omega : ¬(xa ≤ xb))]

/-- C1: for every roster of at least two athletes whose ids are pairwise
distinct and none of which is the reserved BYE id, one cycle of the Pairing
Generator `generateRoundsForGroup` emits exactly N*(N-1)/2 matches in total,
and every unordered pair of distinct roster athletes is paired against each
other in exactly one match of the cycle (BYE matches being dropped when N is
odd). -/
theorem c1_round_robin_exact (genId : String → String) (athletes : List Athlete)
    (gid : String) (h2 : 2 ≤ athletes.length)
    (hnd : (athletes.map (fun a => a.id)).Nodup)
    (hbye : byeId ∉ athletes.map (fun a => a.id)) :
    ((generateRoundsForGroup genId athletes gid 1).flatMap (fun rd => rd.«matches»)).length
        = athletes.length * (athletes.length - 1) / 2
      ∧ ∀ a ∈ athletes, ∀ b ∈ athletes, a.id ≠ b.id →
          ((generateRoundsForGroup genId athletes gid 1).flatMap
              (fun rd => rd.«matches»)).countP
            (fun m => decide (matchBetween a.id b.id m)) = 1 := by
  constructor
  · rw [flat_length_eq genId athletes gid h2]
    exact countP_keep_allPairs athletes gid hbye
  · intro a ha b hb hab
    have hane : a.id ≠ byeId := fun he => hbye (he ▸ List.mem_map.mpr ⟨a, ha, rfl⟩)
    have hbne : b.id ≠ byeId := fun he => hbye (he ▸ List.mem_map.mpr ⟨b, hb, rfl⟩)
    rw [flat_countP_eq genId athletes gid a.id b.id h2 hane hbne]
    exact countP_hits_allPairs hnd hbye ha hb hab

/-- C1 witness: the three-athlete roster (odd size, so a BYE is appended and
its matches dropped) yields 3 matches, one per unordered pair. -/
theorem c1_witness :
    ((generateRoundsForGroup (fun s => s) [wA, wB, wC] ("g1") 1).flatMap
        (fun rd => rd.«matches»)).length
      = ([wA, wB, wC] : List Athlete).length
          * (([wA, wB, wC] : List Athlete).length - 1) / 2
    ∧ ∀ a ∈ ([wA, wB, wC] : List Athlete), ∀ b ∈ ([wA, wB, wC] : List Athlete),
        a.id ≠ b.id →
        ((generateRoundsForGroup (fun s => s) [wA, wB, wC] ("g1") 1).flatMap
            (fun rd => rd.«matches»)).countP
          (fun m => decide (matchBetween a.id b.id m)) = 1 :=
  c1_round_robin_exact (fun s => s) [wA, wB, wC] ("g1") (by decide) (by decide) (by decide)

/-! ### C3: the rest constraint is never violated

The loop invariant ties each athlete's committed entries to the athlete's
`availableAt` tracker: every committed entry ends at least `minRest` before
the athlete's next availability, and a pair is only committed when both
athletes are available at the clock, so consecutive entries of one athlete
are always separated by at least the minimum rest. -/

lemma commitStates_other {gs : String → GroupSchedulingState} {sgid : String}
    {bp : CandidatePair} {mEnd mr t : Nat} {gid : String} (h : gid ≠ sgid) :
    commitStates gs sgid bp mEnd mr t gid = gs gid := by
  simp only [commitStates, updGroupState]
  rw [if_neg h]

lemma commitStates_avail (gs : String → GroupSchedulingState) (sgid : String)
    (bp : CandidatePair) (mEnd mr t : Nat) (aid : String) :
    (((commitStates gs sgid bp mEnd mr t) sgid).athleteStates aid).availableAt
      = if aid = bp.athlete2.id ∨ aid = bp.athlete1.id then mEnd + mr
        else ((gs sgid).athleteStates aid).availableAt := by
  simp only [commitStates, updGroupState, updAthleteState, if_true]
  by_cases h2 : aid = bp.athlete2.id
  · rw [if_pos h2, if_pos (Or.inl h2)]
  · rw [if_neg h2]
    by_cases h1 : aid = bp.athlete1.id
    · rw [if_pos h1, if_pos (Or.inr h1)]
    · rw [if_neg h1, if_neg (by tauto : ¬(aid = bp.athlete2.id ∨ aid = bp.athlete1.id))]

lemma mem_flatMap_nodup_unique {α β : Type _} (f : α → List β) :
    ∀ l : List α, (l.flatMap f).Nodup →
      ∀ a ∈ l, ∀ b ∈ l, ∀ x, x ∈ f a → x ∈ f b → a = b := by
  intro l
  induction l with
  | nil => intro _ a ha; cases ha
  | cons c l ih =>
    intro hnd a ha b hb x hxa hxb
    rw [List.flatMap_cons] at hnd
    rcases List.nodup_append.mp hnd with ⟨_, hl, hdisj⟩
    rcases List.mem_cons.mp ha with rfl | ha2
    · rcases List.mem_cons.mp hb with rfl | hb2
      · rfl
      · exact (hdisj hxa (List.mem_flatMap.mpr ⟨b, hb2, hxb⟩)).elim
    · rcases List.mem_cons.mp hb with rfl | hb2
      · exact (hdisj hxb (List.mem_flatMap.mpr ⟨a, ha2, hxa⟩)).elim
      · exact ih hl a ha2 b hb2 x hxa hxb

lemma athleteEntries_append (aid : String) (l1 l2 : List ScheduleEntry) :
    athleteEntries aid (l1 ++ l2) = athleteEntries aid l1 ++ athleteEntries aid l2 := by
  unfold athleteEntries
  rw [List.filter_append]

lemma flatMap_sublist_of_mem {α β : Type _} (f : α → List β) {l : List α} {a : α}
    (h : a ∈ l) : (f a).Sublist (l.flatMap f) := by
  rcases List.append_of_mem h with ⟨s, t, rfl⟩
  rw [List.flatMap_append, List.flatMap_cons]
  exact (List.sublist_append_left (f a) (t.flatMap f)).trans
    (List.sublist_append_right (s.flatMap f) _)

lemma timeBoxedLoop_chain (genId : String → String) (area : Area) (groups : List Group)
    (fight rot endT minRest : Nat) (hfight : 1 ≤ fight)
    (hdisj : (groups.flatMap groupIds).Nodup) :
    ∀ (fuel t : Nat) (gs : String → GroupSchedulingState) (seq : Nat)
      (acc : List ScheduleEntry),
      (∀ e ∈ acc, e.endTimeSeconds ≤ t ∧ e.startTimeSeconds + fight = e.endTimeSeconds) →
      (∀ g ∈ groups, ∀ aid ∈ groupIds g, ∀ e ∈ athleteEntries aid acc,
          e.endTimeSeconds + minRest ≤ ((gs g.id).athleteStates aid).availableAt) →
      (∀ aid, List.Chain' (restOrdered minRest) (athleteEntries aid acc)) →
      ∀ aid, List.Chain' (restOrdered minRest)
        (athleteEntries aid (timeBoxedLoop genId area groups fight rot endT minRest
          fuel t gs seq acc)) := by
  intro fuel
  induction fuel with
  | zero =>
    intro t gs seq acc _ _ hC aid
    rw [timeBoxedLoop]
    exact hC aid
  | succ n ih =>
    intro t gs seq acc hTE hB hC aid
    rw [timeBoxedLoop]
    split
    · next hle =>
      split
      · next hsel =>
        dsimp only
        split
        · exact hC aid
        · next hnext =>
          have hlt : t < computeNextAvailable groups gs t endT := by
            rcases computeNextAvailable_lb groups gs t endT with h | h
            · exact h
            · exact absurd h hnext
          refine ih _ _ _ _ ?_ hB hC aid
          intro e he
          rcases hTE e he with ⟨h1, h2⟩
          exact ⟨by omega, h2⟩
      · next sgid hsel =>
        split
        · exact hC aid
        · next sg hfind =>
          split
          · exact hC aid
          · next bp hbp =>
            have hsgmem : sg ∈ groups := List.mem_of_find?_eq_some hfind
            have hsgid : sg.id = sgid := by simpa using List.find?_some hfind
            rcases findBestPairForGroup_some hbp with ⟨p, hp, ha1, ha2, hav1, hav2, _⟩
            rcases pairsInOrder_mem hp with ⟨hm1, hm2⟩
            refine ih _ _ _ _ ?_ ?_ ?_ aid
            · -- every accumulated entry ends by the advanced clock
              intro e he
              rcases List.mem_append.mp he with he | he
              · rcases hTE e he with ⟨h1, h2⟩
                exact ⟨by omega, h2⟩
              · have heq : e = commitEntry genId area sgid bp t fight (seq + 1) := by
                  simpa using he
                subst heq
                exact ⟨by simp [commitEntry], by simp [commitEntry]⟩
            · -- the availability linkage survives the commit
              intro g hg aid' haid' e he
              rw [athleteEntries_append] at he
              rcases List.mem_append.mp he with he | he
              · have hold := hB g hg aid' haid' e he
                by_cases hkey : g.id = sgid
                · rw [hkey] at hold ⊢
                  rw [commitStates_avail]
                  split_ifs with hin
                  · have hav : ((gs sgid).athleteStates aid').availableAt ≤ t := by
                      rcases hin with hin | hin
                      · rw [hin, ha2]
                        exact hav2
                      · rw [hin, ha1]
                        exact hav1
                    omega
                  · exact hold
                · rw [commitStates_other hkey]
                  exact hold
              · -- the entry is the one just committed
                rcases List.mem_filter.mp he with ⟨hmem, hpred⟩
                have heq : e = commitEntry genId area sgid bp t fight (seq + 1) := by
                  simpa using hmem
                subst heq
                have hpred' := of_decide_eq_true hpred
                have haid'sg : aid' ∈ groupIds sg := by
                  rcases hpred' with h | h
                  · rw [show (commitEntry genId area sgid bp t fight
                        (seq + 1)).athlete1Id = bp.athlete1.id from rfl, ha1] at h
                    exact h ▸ List.mem_map.mpr ⟨p.1, hm1, rfl⟩
                  · rw [show (commitEntry genId area sgid bp t fight
                        (seq + 1)).athlete2Id = bp.athlete2.id from rfl, ha2] at h
                    exact h ▸ List.mem_map.mpr ⟨p.2, hm2, rfl⟩
                have hgsg : g = sg :=
                  mem_flatMap_nodup_unique groupIds groups hdisj g hg sg hsgmem aid'
                    haid' haid'sg
                rw [hgsg, hsgid, commitStates_avail]
                have hin : aid' = bp.athlete2.id ∨ aid' = bp.athlete1.id := by
                  rcases hpred' with h | h
                  · exact Or.inr h.symm
                  · exact Or.inl h.symm
                rw [if_pos hin]
                simp [commitEntry]
            · -- the per-athlete chains survive the commit
              intro aid'
              rw [athleteEntries_append]
              by_cases hpred : ((commitEntry genId area sgid bp t fight
                    (seq + 1)).athlete1Id = aid'
                  ∨ (commitEntry genId area sgid bp t fight (seq + 1)).athlete2Id = aid')
              · have hfil : athleteEntries aid'
                    [commitEntry genId area sgid bp t fight (seq + 1)]
                    = [commitEntry genId area sgid bp t fight (seq + 1)] := by
                  unfold athleteEntries
                  simp [hpred]
                rw [hfil, List.chain'_append]
                refine ⟨hC aid', List.chain'_singleton _, ?_⟩
                intro x hx y hy
                have hy' : y = commitEntry genId area sgid bp t fight (seq + 1) := by
                  have := hy
                  simp at this
                  exact this.symm
                subst hy'
                have hxmem : x ∈ athleteEntries aid' acc :=
                  mem_of_getLast?_eq (Option.mem_def.mp hx)
                have hxacc : x ∈ acc := List.mem_of_mem_filter hxmem
                have haid'sg : aid' ∈ groupIds sg := by
                  rcases hpred with h | h
                  · rw [show (commitEntry genId area sgid bp t fight
                        (seq + 1)).athlete1Id = bp.athlete1.id from rfl, ha1] at h
                    exact h ▸ List.mem_map.mpr ⟨p.1, hm1, rfl⟩
                  · rw [show (commitEntry genId area sgid bp t fight
                        (seq + 1)).athlete2Id = bp.athlete2.id from rfl, ha2] at h
                    exact h ▸ List.mem_map.mpr ⟨p.2, hm2, rfl⟩
                have hxB := hB sg hsgmem aid' haid'sg x hxmem
                rw [hsgid] at hxB
                have havt : ((gs sgid).athleteStates aid').availableAt ≤ t := by
                  rcases hpred with h | h
                  · rw [show (commitEntry genId area sgid bp t fight
                        (seq + 1)).athlete1Id = bp.athlete1.id from rfl, ha1] at h
                    rw [← h]
                    exact hav1
                  · rw [show (commitEntry genId area sgid bp t fight
                        (seq + 1)).athlete2Id = bp.athlete2.id from rfl, ha2] at h
                    rw [← h]
                    exact hav2
                rcases hTE x hxacc with ⟨hx1, hx2⟩
                have hstart : (commitEntry genId area sgid bp t fight
                    (seq + 1)).startTimeSeconds = t := rfl
                constructor
                · rw [hstart]
                  omega
                · rw [hstart]
                  omega
              · have hfil : athleteEntries aid'
                    [commitEntry genId area sgid bp t fight (seq + 1)] = [] := by
                  unfold athleteEntries
                  simp [hpred]
                rw [hfil, List.append_nil]
                exact hC aid'
    · exact hC aid

lemma scheduleArea_chain (genId : String → String) (area : Area) (groups : List Group)
    (fight rot s endT mr : Nat) (hfight : 1 ≤ fight)
    (hdisj : (groups.flatMap groupIds).Nodup) :
    ∀ aid, List.Chain' (restOrdered mr) (athleteEntries aid
      (scheduleTimeBoxedMatchesForArea genId area groups fight rot s endT mr)) := by
  intro aid
  unfold scheduleTimeBoxedMatchesForArea
  refine timeBoxedLoop_chain genId area groups fight rot endT mr hfight hdisj
    _ _ _ _ _ ?_ ?_ ?_ aid
  · intro e he
    cases he
  · intro g _ aid' _ e he
    unfold athleteEntries at he
    simp at he
  · intro aid'
    unfold athleteEntries
    simp

lemma chain_flatMap_disjoint {α : Type _} (chunk : α → List ScheduleEntry)
    (ids : α → List String) (mr : Nat) :
    ∀ l : List α,
      (∀ a ∈ l, ∀ e ∈ chunk a, e.athlete1Id ∈ ids a ∧ e.athlete2Id ∈ ids a) →
      (l.flatMap ids).Nodup →
      (∀ a ∈ l, ∀ aid, List.Chain' (restOrdered mr) (athleteEntries aid (chunk a))) →
      ∀ aid, List.Chain' (restOrdered mr) (athleteEntries aid (l.flatMap chunk)) := by
  intro l
  induction l with
  | nil =>
    intro _ _ _ aid
    unfold athleteEntries
    simp
  | cons a l ih =>
    intro hids hnd hch aid
    rw [List.flatMap_cons, athleteEntries_append]
    rw [List.flatMap_cons] at hnd
    rcases List.nodup_append.mp hnd with ⟨_, hndl, hdisj⟩
    by_cases hmem : aid ∈ ids a
    · have h2 : athleteEntries aid (l.flatMap chunk) = [] := by
        unfold athleteEntries
        rw [List.filter_eq_nil_iff]
        intro e he hpred
        rcases List.mem_flatMap.mp he with ⟨b, hb, heb⟩
        have haidb : aid ∈ ids b := by
          rcases of_decide_eq_true hpred with h | h
          · exact h ▸ (hids b (List.mem_cons_of_mem a hb) e heb).1
          · exact h ▸ (hids b (List.mem_cons_of_mem a hb) e heb).2
        exact hdisj hmem (List.mem_flatMap.mpr ⟨b, hb, haidb⟩)
      rw [h2, List.append_nil]
      exact hch a (List.mem_cons_self a l) aid
    · have h1 : athleteEntries aid (chunk a) = [] := by
        unfold athleteEntries
        rw [List.filter_eq_nil_iff]
        intro e he hpred
        rcases of_decide_eq_true hpred with h | h
        · exact hmem (h ▸ (hids a (List.mem_cons_self a l) e he).1)
        · exact hmem (h ▸ (hids a (List.mem_cons_self a l) e he).2)
      rw [h1, List.nil_append]
      exact ih (fun b hb => hids b (List.mem_cons_of_mem a hb)) hndl
        (fun b hb => hch b (List.mem_cons_of_mem a hb)) aid

lemma areaPassStep_chain {genId : String → String} {fight rot s e mr : Nat} {area : Area}
    (hfight : 1 ≤ fight)
    (hdisj : ((area.groups.filter (fun g => decide (2 ≤ g.athletes.length))).flatMap
      groupIds).Nodup) :
    ∀ aid, List.Chain' (restOrdered mr)
      (athleteEntries aid (areaPassStep genId fight rot s e mr area).2) := by
  intro aid
  unfold areaPassStep
  split
  · unfold athleteEntries
    simp
  · dsimp only
    by_cases hvg : (area.groups.filter (fun g => decide (2 ≤ g.athletes.length))).length = 0
    · rw [if_pos hvg]
      unfold athleteEntries
      simp
    · rw [if_neg hvg]
      exact scheduleArea_chain genId area _ fight rot s e mr hfight hdisj aid

/-- C3: every schedule the time-boxed scheduler emits respects the minimum
rest: for each athlete, the entries involving that athlete — which the loop
emits in strictly increasing start-time order — are chained so that every
next match starts at least `minRestBetweenFightsSeconds` after the previous
one ends.  Hypotheses: the match duration is positive (the input contract)
and athlete ids are globally distinct (ids are generated unique). -/
theorem c3_min_rest (genId : String → String) (event : Event) (res : ScheduleResult)
    (hres : generateTimeBoxedSchedule genId event = some res)
    (hfight : 1 ≤ event.fightDuration)
    (hnd : ((eventGroups event).flatMap groupIds).Nodup) :
    ∀ aid, List.Chain' (restOrdered (event.minRestBetweenFightsSeconds.getD 0))
      (athleteEntries aid res.schedule.entries) := by
  intro aid
  rcases generate_eq_core hres with ⟨s, e, _, _, hresEq⟩
  rw [hresEq]
  by_cases hov : s + event.fightDuration > e
  · rw [core_overflow hov]
    unfold athleteEntries
    simp
  · rw [core_not_overflow_entries hov]
    refine chain_flatMap_disjoint _ (fun a => a.groups.flatMap groupIds) _ event.areas
      ?_ ?_ ?_ aid
    · intro a ha x hx
      rcases areaPassStep_entries hx with ⟨_, _, _, g, hg, _, h1, h2⟩
      have hga : g ∈ a.groups := List.mem_of_mem_filter hg
      exact ⟨List.mem_flatMap.mpr ⟨g, hga, h1⟩, List.mem_flatMap.mpr ⟨g, hga, h2⟩⟩
    · unfold eventGroups at hnd
      rw [List.flatMap_assoc] at hnd
      exact hnd
    · intro a ha aid'
      refine areaPassStep_chain hfight ?_ aid'
      have hsub : ((a.groups.filter (fun g => decide (2 ≤ g.athletes.length))).flatMap
          groupIds).Sublist ((eventGroups event).flatMap groupIds) := by
        refine List.Sublist.trans
          (sublist_flatMap_mono groupIds (List.filter_sublist a.groups)) ?_
        unfold eventGroups
        rw [List.flatMap_assoc]
        exact flatMap_sublist_of_mem (fun a => a.groups.flatMap groupIds) ha
      exact hnd.sublist hsub

/-- C3 witness: on the two-athlete event with a 120-second minimum rest the
scheduler emits two matches for athlete `A` (60-120 and 240-300), separated
by exactly the minimum rest. -/
theorem c3_witness :
    (generateTimeBoxedSchedule (fun s => s) evRest = some evRestResult ∧
      1 ≤ evRest.fightDuration ∧ ((eventGroups evRest).flatMap groupIds).Nodup) ∧
    List.Chain' (restOrdered (evRest.minRestBetweenFightsSeconds.getD 0))
      (athleteEntries ("A") evRestResult.schedule.entries) :=
  ⟨⟨rfl, by decide, by decide⟩,
    c3_min_rest (fun s => s) evRest evRestResult rfl (by decide) (by decide) ("A")⟩

end TestMatch
